import Mathlib

/-!
A shallow embedding of the hierarchical dependency-injection resolver
(`Injector`, `_SyncInjectorStrategy`, `_AsyncInjectorStrategy`,
`_flattenBindings`) found in the repository's injector module.

Modelling choices, in one place:

* Dart/JS values flowing through the injector are modelled by the
  inductive type `Obj`.  The private sentinel `_constructing` and the
  wrapper `_Waiting(future)` are values stored in the instance slot
  array, so `Obj` has constructors for both; a Dart `null` is
  `Obj.vnull`.  Futures are identified by an index (`fid`) into a
  futures store held in the global state; the value `Obj.vfut f` is a
  reference to future `f`.  The closure returned for a lazy lookup is
  reified as `Obj.vthunk`.
* The source stores instances in a fixed-size JS array
  (`ListWrapper.createFixedSize`), reads with an explicit length guard
  (`_getInstance` returns `null` past the end) and writes with plain
  `array[i] = v` (which auto-extends a JS array).  `listGetD` /
  `listSetD` reproduce exactly that.
* Exceptions are modelled with `Except`; Dart exceptions do not roll
  back state, so every operation returns `Except DIErr α × DIState`.
  All of `NoProviderError`, `CyclicDependencyError`,
  `AsyncBindingError` and `InstantiationError` extend `ProviderError`
  in the source, whose `addKey` appends a key to the error's key
  chain; `DIErr` carries that chain.
* Factories are Lean functions `List Obj → Nat → Except Unit Obj`:
  the extra `Nat` is a fresh allocation tag threaded through the
  state (`nextTag`), letting a factory create a distinguishable fresh
  object (`Obj.vref tag`) the way `new C()` does.  Every factory
  invocation is recorded in `calls` so "the factory is invoked once"
  is a statement about the state.
* The async machinery (`FutureWrapper.wait`, `.catchError`, `.then`
  chains) is modelled by a deterministic cooperative scheduler: the
  future chain built by `_AsyncInjectorStrategy.instantiate` becomes a
  `Task`; `schedStep` runs the first runnable task, `runLoop` iterates
  to quiescence.  `Promise.all` semantics: a non-future element counts
  as already settled with itself, and the join fails as soon as some
  element has failed (the first failed element in list order).
  A `.then` on a future that produced another future flattens
  (phase `TaskPhase.waitInner`).
* Recursion in `_getByKey` (parent delegation and dependency
  resolution) is bounded by explicit fuel; exhausted fuel yields the
  distinguished error `DIErr.outOfFuel`, which no theorem confuses
  with a behaviour of the source.
-/

/-- A resolution key: `Key.get(token)` assigns tokens dense integer
ids; `_getByKey` additionally tests `key.token === Injector`, which we
record as a boolean on the key. -/
structure Key where
  id : Nat
  tokenIsInjector : Bool
deriving DecidableEq, Repr

/-- Dart/JS runtime values as seen by the injector: `null`, the
private `_constructing` sentinel, a `_Waiting(future)` wrapper, plain
object references (tagged by allocation), an injector reference, a
future reference, and the closure returned by a lazy lookup. -/
inductive Obj where
  | vnull
  | constructingM
  | waitingM (fid : Nat)
  | vref (tag : Nat)
  | vinj (inj : Nat)
  | vfut (fid : Nat)
  | vthunk (inj : Nat) (keyId : Nat) (returnFuture : Bool)
deriving DecidableEq, Repr

/-- `isPresent(obj)` from `facade/lang`: anything but `null`. -/
def isPresent (o : Obj) : Bool := o != Obj.vnull

/-- `_isWaiting(obj)`: is the slot value a `_Waiting` wrapper? -/
def isWaiting (o : Obj) : Bool :=
  match o with
  | Obj.waitingM _ => true
  | _ => false

/-- Error taxonomy of `exceptions.js`.  Each provider error carries
its key chain (`addKey` appends). -/
inductive DIErr where
  | noProvider (keys : List Nat)
  | cyclic (keys : List Nat)
  | asyncBinding (keys : List Nat)
  | instantiation (keys : List Nat)
  | invalidBinding
  | outOfFuel
deriving DecidableEq, Repr

/-- `ProviderError.addKey(key)`: appends the key to the chain.  All
four lookup errors extend `ProviderError`; the remaining errors are
left untouched, matching `if (e instanceof ProviderError) e.addKey(key)`. -/
def addKey (e : DIErr) (k : Nat) : DIErr :=
  match e with
  | DIErr.noProvider ks => DIErr.noProvider (ks ++ [k])
  | DIErr.cyclic ks => DIErr.cyclic (ks ++ [k])
  | DIErr.asyncBinding ks => DIErr.asyncBinding (ks ++ [k])
  | DIErr.instantiation ks => DIErr.instantiation (ks ++ [k])
  | e => e

/-- A dependency spec of a binding: target key plus the `asFuture` and
`lazy` flags read by `_resolveDependencies`. -/
structure Dep where
  key : Key
  asFuture : Bool
  lazy : Bool

/-- A resolved binding: key, factory, dependency list and the
`providedAsFuture` flag.  The factory receives the resolved dependency
values and a fresh allocation tag; it may throw. -/
structure Binding where
  key : Key
  factory : List Obj → Nat → Except Unit Obj
  dependencies : List Dep
  providedAsFuture : Bool

/-- State of one future in the futures store. -/
inductive FutState where
  | pending
  | done (v : Obj)
  | failed (e : DIErr)
deriving DecidableEq, Repr

/-- Phase of an in-flight async construction task (the future chain
built by `_AsyncInjectorStrategy.instantiate`). -/
inductive TaskPhase where
  | waitDeps
  | waitInner (fid : Nat)

/-- One in-flight async construction: the chain
`wait(deps).catchError(h).then(findOrCreate).then(cacheInstance)`
completing future `resultFid`. -/
structure ATask where
  inj : Nat
  key : Key
  binding : Binding
  deps : List Obj
  resultFid : Nat
  phase : TaskPhase

/-- One injector node: its binding array (`_bindings`), instance slot
array (`_instances`) and parent link. -/
structure InjNode where
  bindings : List (Option Binding)
  instances : List Obj
  parent : Option Nat

/-- Global state: the injector tree (nodes addressed by index), the
futures store, the microtask queue, the fresh-object counter and the
log of factory invocations `(injector, keyId)`. -/
structure DIState where
  injectors : List InjNode
  futures : List FutState
  tasks : List ATask
  nextTag : Nat
  calls : List (Nat × Nat)

/-- JS array read with the source's length guard
(`if (this._instances.length <= key.id) return null`). -/
def listGetD (l : List Obj) (i : Nat) : Obj := l.getD i Obj.vnull

/-- JS array write `a[i] = v`: in range it updates, out of range the
array auto-extends (holes read back as `null`). -/
def listSetD (l : List Obj) (i : Nat) (v : Obj) : List Obj :=
  if i < l.length then l.set i v
  else l ++ List.replicate (i - l.length) Obj.vnull ++ [v]

/-- Dummy node used for an out-of-range injector index (never reached
by well-formed states). -/
def emptyNode : InjNode := ⟨[], [], none⟩

def injNode (st : DIState) (inj : Nat) : InjNode := st.injectors.getD inj emptyNode

/-- `Injector._getInstance`. -/
def getInstance (st : DIState) (inj : Nat) (keyId : Nat) : Obj :=
  listGetD (injNode st inj).instances keyId

/-- `Injector._getBinding` (same length-guarded array read). -/
def getBinding (st : DIState) (inj : Nat) (keyId : Nat) : Option Binding :=
  (injNode st inj).bindings.getD keyId none

def mapNode (st : DIState) (inj : Nat) (f : InjNode → InjNode) : DIState :=
  { st with injectors := st.injectors.set inj (f (injNode st inj)) }

/-- `Injector._setInstance`. -/
def setInstance (st : DIState) (inj : Nat) (keyId : Nat) (v : Obj) : DIState :=
  mapNode st inj (fun n => { n with instances := listSetD n.instances keyId v })

/-- `Injector._markAsConstructing`. -/
def markAsConstructing (st : DIState) (inj : Nat) (keyId : Nat) : DIState :=
  setInstance st inj keyId Obj.constructingM

/-- `Injector._clear`. -/
def clearInst (st : DIState) (inj : Nat) (keyId : Nat) : DIState :=
  setInstance st inj keyId Obj.vnull

def parentOf (st : DIState) (inj : Nat) : Option Nat := (injNode st inj).parent

/-- Allocate a new future in the given state; returns its id. -/
def allocFuture (st : DIState) (s : FutState) : Nat × DIState :=
  (st.futures.length, { st with futures := st.futures ++ [s] })

def futGet (st : DIState) (fid : Nat) : FutState :=
  st.futures.getD fid FutState.pending

def futSet (st : DIState) (fid : Nat) (s : FutState) : DIState :=
  { st with futures := st.futures.set fid s }

/-- Record a factory invocation and consume the fresh tag. -/
def recordCall (st : DIState) (inj : Nat) (keyId : Nat) : DIState :=
  { st with nextTag := st.nextTag + 1, calls := st.calls ++ [(inj, keyId)] }

/-- `_SyncInjectorStrategy.readFromCache`: the injector's own token
short-circuits; the construction marker means a cycle; a present,
non-`_Waiting` value is a hit; anything else is a miss. -/
def syncReadFromCache (st : DIState) (inj : Nat) (key : Key) :
    Except DIErr (Option Obj) × DIState :=
  if key.tokenIsInjector then (Except.ok (some (Obj.vinj inj)), st)
  else if getInstance st inj key.id = Obj.constructingM then
    (Except.error (DIErr.cyclic [key.id]), st)
  else if isPresent (getInstance st inj key.id) && !isWaiting (getInstance st inj key.id) then
    (Except.ok (some (getInstance st inj key.id)), st)
  else
    (Except.ok none, st)

/-- `_AsyncInjectorStrategy.readFromCache`: the injector's own token
and resolved values are wrapped in an already-complete future
(`FutureWrapper.value`); a `_Waiting` slot yields the very same
in-flight future. -/
def asyncReadFromCache (st : DIState) (inj : Nat) (key : Key) :
    Except DIErr (Option Obj) × DIState :=
  if key.tokenIsInjector then
    let (fid, st') := allocFuture st (FutState.done (Obj.vinj inj))
    (Except.ok (some (Obj.vfut fid)), st')
  else if getInstance st inj key.id = Obj.constructingM then
    (Except.error (DIErr.cyclic [key.id]), st)
  else
    match getInstance st inj key.id with
    | Obj.waitingM f => (Except.ok (some (Obj.vfut f)), st)
    | Obj.vnull => (Except.ok none, st)
    | o =>
      let (fid, st') := allocFuture st (FutState.done o)
      (Except.ok (some (Obj.vfut fid)), st')

/-- The dependency loop inside `Injector._resolveDependencies`:
`ListWrapper.map(binding.dependencies, d => getByKey(d.key,
forceAsync || d.asFuture, d.lazy))`, stopping at the first thrown
error. -/
def resolveDepsLoop
    (rec : Nat → Key → Bool → Bool → DIState → Except DIErr Obj × DIState)
    (inj : Nat) (forceAsync : Bool) :
    List Dep → DIState → Except DIErr (List Obj) × DIState
  | [], st => (Except.ok [], st)
  | d :: ds, st =>
    match rec inj d.key (forceAsync || d.asFuture) d.lazy st with
    | (Except.error e, st') => (Except.error e, st')
    | (Except.ok v, st') =>
      match resolveDepsLoop rec inj forceAsync ds st' with
      | (Except.error e, st'') => (Except.error e, st'')
      | (Except.ok vs, st'') => (Except.ok (v :: vs), st'')

/-- `Injector._resolveDependencies`: on any error the slot under
construction is cleared, the key appended to a provider error, and the
error rethrown. -/
def resolveDependencies
    (rec : Nat → Key → Bool → Bool → DIState → Except DIErr Obj × DIState)
    (inj : Nat) (key : Key) (b : Binding) (forceAsync : Bool) (st : DIState) :
    Except DIErr (List Obj) × DIState :=
  match resolveDepsLoop rec inj forceAsync b.dependencies st with
  | (Except.error e, st') => (Except.error (addKey e key.id), clearInst st' inj key.id)
  | (Except.ok vs, st') => (Except.ok vs, st')

/-- `_SyncInjectorStrategy._createInstance`: invoke the factory; on
success cache and return the instance, on a throw clear the slot and
raise `InstantiationError`. -/
def createInstance (inj : Nat) (key : Key) (b : Binding) (deps : List Obj)
    (st : DIState) : Except DIErr Obj × DIState :=
  let tag := st.nextTag
  let st1 := recordCall st inj key.id
  match b.factory deps tag with
  | Except.ok v => (Except.ok v, setInstance st1 inj key.id v)
  | Except.error _ => (Except.error (DIErr.instantiation [key.id]), clearInst st1 inj key.id)

/-- `_SyncInjectorStrategy.instantiate`: no binding means "not here"
(`null`); an async-only binding fails; otherwise mark the slot,
resolve dependencies and build the instance. -/
def syncInstantiate
    (rec : Nat → Key → Bool → Bool → DIState → Except DIErr Obj × DIState)
    (inj : Nat) (key : Key) (st : DIState) : Except DIErr Obj × DIState :=
  match getBinding st inj key.id with
  | none => (Except.ok Obj.vnull, st)
  | some b =>
    if b.providedAsFuture then (Except.error (DIErr.asyncBinding [key.id]), st)
    else
      let st1 := markAsConstructing st inj key.id
      match resolveDependencies rec inj key b false st1 with
      | (Except.error e, st2) => (Except.error e, st2)
      | (Except.ok deps, st2) => createInstance inj key b deps st2

/-- `_AsyncInjectorStrategy.instantiate`: mark the slot, resolve the
dependencies in forced-async mode, then build the
`wait → catchError → findOrCreate → cacheInstance` chain as a task,
install the `_Waiting` wrapper and return the chain's future. -/
def asyncInstantiate
    (rec : Nat → Key → Bool → Bool → DIState → Except DIErr Obj × DIState)
    (inj : Nat) (key : Key) (st : DIState) : Except DIErr Obj × DIState :=
  match getBinding st inj key.id with
  | none => (Except.ok Obj.vnull, st)
  | some b =>
    let st1 := markAsConstructing st inj key.id
    match resolveDependencies rec inj key b true st1 with
    | (Except.error e, st2) => (Except.error e, st2)
    | (Except.ok deps, st2) =>
      let (fid, st3) := allocFuture st2 FutState.pending
      let st4 := { st3 with
        tasks := st3.tasks ++ [⟨inj, key, b, deps, fid, TaskPhase.waitDeps⟩] }
      let st5 := setInstance st4 inj key.id (Obj.waitingM fid)
      (Except.ok (Obj.vfut fid), st5)

/-- `Injector._getByKey`, fuel-bounded.  A lazy lookup returns a thunk
immediately; otherwise: strategy cache read, strategy instantiate,
parent delegation, `NoProviderError`. -/
def getByKey : Nat → Nat → Key → Bool → Bool → DIState →
    Except DIErr Obj × DIState
  | 0, _, _, _, _, st => (Except.error DIErr.outOfFuel, st)
  | fuel + 1, inj, key, returnFuture, returnLazy, st =>
    if returnLazy then (Except.ok (Obj.vthunk inj key.id returnFuture), st)
    else
      let readRes :=
        if returnFuture then asyncReadFromCache st inj key
        else syncReadFromCache st inj key
      match readRes with
      | (Except.error e, st1) => (Except.error e, st1)
      | (Except.ok (some v), st1) => (Except.ok v, st1)
      | (Except.ok none, st1) =>
        let instRes :=
          if returnFuture then asyncInstantiate (getByKey fuel) inj key st1
          else syncInstantiate (getByKey fuel) inj key st1
        match instRes with
        | (Except.error e, st2) => (Except.error e, st2)
        | (Except.ok v, st2) =>
          if isPresent v then (Except.ok v, st2)
          else
            match parentOf st2 inj with
            | some p => getByKey fuel p key returnFuture returnLazy st2
            | none => (Except.error (DIErr.noProvider [key.id]), st2)

/-- `Injector.get(token)` on a non-injector token with key id `k`. -/
def syncGet (fuel : Nat) (inj : Nat) (k : Nat) (st : DIState) :
    Except DIErr Obj × DIState :=
  getByKey fuel inj ⟨k, false⟩ false false st

/-- `Injector.asyncGet(token)` on a non-injector token with key id `k`. -/
def asyncGet (fuel : Nat) (inj : Nat) (k : Nat) (st : DIState) :
    Except DIErr Obj × DIState :=
  getByKey fuel inj ⟨k, false⟩ true false st

/-- Settlement status of one element of the `FutureWrapper.wait`
(`Promise.all`) join: a non-future element counts as settled with
itself. -/
def depStatus (st : DIState) (o : Obj) : Option (Except DIErr Obj) :=
  match o with
  | Obj.vfut f =>
    match futGet st f with
    | FutState.pending => none
    | FutState.done v => some (Except.ok v)
    | FutState.failed e => some (Except.error e)
  | o => some (Except.ok o)

/-- First failed element of a join, if any (`Promise.all` rejects with
the first rejection). -/
def depErr (st : DIState) (deps : List Obj) : Option DIErr :=
  deps.findSome? (fun o =>
    match depStatus st o with
    | some (Except.error e) => some e
    | _ => none)

def depsSettled (st : DIState) (deps : List Obj) : Bool :=
  deps.all (fun o => (depStatus st o).isSome)

def depValues (st : DIState) (deps : List Obj) : List Obj :=
  deps.map (fun o =>
    match depStatus st o with
    | some (Except.ok v) => v
    | _ => Obj.vnull)

/-- A task may run when its join has failed or fully settled
(`waitDeps`), or its inner future has settled (`waitInner`). -/
def taskRunnable (st : DIState) (t : ATask) : Bool :=
  match t.phase with
  | TaskPhase.waitDeps => (depErr st t.deps).isSome || depsSettled st t.deps
  | TaskPhase.waitInner g => futGet st g != FutState.pending

/-- `_AsyncInjectorStrategy._cacheInstance` step of the chain, with
`.then` flattening: a future-valued instance is awaited first. -/
def cacheStep (st : DIState) (t : ATask) (v : Obj) : DIState × Option ATask :=
  match v with
  | Obj.vfut g => (st, some { t with phase := TaskPhase.waitInner g })
  | v =>
    (futSet (setInstance st t.inj t.key.id v) t.resultFid (FutState.done v), none)

/-- Run one runnable task — the continuation of the chain
`wait(deps).catchError(errorHandler).then(findOrCreate).then(cacheInstance)`
built by `_AsyncInjectorStrategy.instantiate`.  On a dependency
failure `_errorHandler` annotates the error and fails the chain — the
slot keeps its `_Waiting` wrapper.  `_findOrCreate` re-reads the slot:
if it no longer holds the `_Waiting` wrapper the current content is
used without invoking the factory; a factory throw clears the slot and
fails the chain with `InstantiationError`. -/
def runTask (st : DIState) (t : ATask) : DIState × Option ATask :=
  match t.phase with
  | TaskPhase.waitDeps =>
    match depErr st t.deps with
    | some e =>
      (futSet st t.resultFid (FutState.failed (addKey e t.key.id)), none)
    | none =>
      let inst := getInstance st t.inj t.key.id
      if isWaiting inst then
        let tag := st.nextTag
        let st1 := recordCall st t.inj t.key.id
        match t.binding.factory (depValues st t.deps) tag with
        | Except.error _ =>
          (futSet (clearInst st1 t.inj t.key.id) t.resultFid
            (FutState.failed (DIErr.instantiation [t.key.id])), none)
        | Except.ok v => cacheStep st1 t v
      else cacheStep st t inst
  | TaskPhase.waitInner g =>
    match futGet st g with
    | FutState.pending => (st, some t)
    | FutState.done v =>
      (futSet (setInstance st t.inj t.key.id v) t.resultFid (FutState.done v), none)
    | FutState.failed e => (futSet st t.resultFid (FutState.failed e), none)

def dummyBinding : Binding :=
  ⟨⟨0, false⟩, fun _ _ => Except.ok Obj.vnull, [], false⟩

def dummyTask : ATask := ⟨0, ⟨0, false⟩, dummyBinding, [], 0, TaskPhase.waitDeps⟩

/-- One scheduler step: run the first runnable task in queue order. -/
def schedStep (st : DIState) : Option DIState :=
  match st.tasks.findIdx? (taskRunnable st) with
  | none => none
  | some i =>
    let t := st.tasks.getD i dummyTask
    let (st1, repl) := runTask st t
    some { st1 with tasks :=
      match repl with
      | some t' => st1.tasks.set i t'
      | none => st1.tasks.eraseIdx i }

/-- Run the scheduler to quiescence (fuel-bounded). -/
def runLoop : Nat → DIState → DIState
  | 0, st => st
  | n + 1, st =>
    match schedStep st with
    | none => st
    | some st' => runLoop n st'

/-- Raw input to `_flattenBindings`: an explicit `Binding`, a bare
type token, a nested list, an unfinished `BindingBuilder`, or any
other (invalid) value. -/
inductive RawBinding where
  | binding (b : Binding)
  | typ (t : Nat)
  | nested (bs : List RawBinding)
  | builder (token : Nat)
  | other

/-- Modelled from the spec: the expansion `bind(b).toClass(b)` of a
bare type token — the `binding` module itself is not among the source
files; §3 of the spec: "bare type/class tokens are expanded into an
implicit default descriptor (self-token, default
constructor-as-factory)".  The default constructor allocates a fresh
object. -/
def typeBinding (t : Nat) : Binding :=
  ⟨⟨t, false⟩, fun _ tag => Except.ok (Obj.vref tag), [], false⟩

/-- The JS `Map` accumulated by `_flattenBindings`: insertion-ordered
association list; `set` overwrites in place. -/
abbrev BMap := List (Nat × Binding)

def mapSet : BMap → Nat → Binding → BMap
  | [], k, b => [(k, b)]
  | (k', b') :: rest, k, b =>
    if k' = k then (k, b) :: rest else (k', b') :: mapSet rest k b

def mapGet : BMap → Nat → Option Binding
  | [], _ => none
  | (k', b) :: rest, k => if k' = k then some b else mapGet rest k

/-- `_flattenBindings`: explicit bindings are entered under their key
id, bare types are expanded and entered, nested lists are flattened
recursively into the same map, and a `BindingBuilder` or unrecognized
element throws `InvalidBindingError`. -/
def flattenBindings : List RawBinding → BMap → Except DIErr BMap
  | [], res => Except.ok res
  | RawBinding.binding b :: rest, res => flattenBindings rest (mapSet res b.key.id b)
  | RawBinding.typ t :: rest, res =>
    let s := typeBinding t
    flattenBindings rest (mapSet res s.key.id s)
  | RawBinding.nested bs :: rest, res =>
    match flattenBindings bs res with
    | Except.error e => Except.error e
    | Except.ok res' => flattenBindings rest res'
  | RawBinding.builder _ :: _, _ => Except.error DIErr.invalidBinding
  | RawBinding.other :: _, _ => Except.error DIErr.invalidBinding

/-- Spec-side definition, following the words of the flattening claim:
the left-to-right sequence of (key-id, descriptor) entries of the
recursively flattened collection. -/
def flatSeq : List RawBinding → List (Nat × Binding)
  | [] => []
  | RawBinding.binding b :: rest => (b.key.id, b) :: flatSeq rest
  | RawBinding.typ t :: rest => (t, typeBinding t) :: flatSeq rest
  | RawBinding.nested bs :: rest => flatSeq bs ++ flatSeq rest
  | RawBinding.builder _ :: rest => flatSeq rest
  | RawBinding.other :: rest => flatSeq rest

/-- Spec-side definition: the descriptor appearing last in
left-to-right traversal order among the entries for key `k`. -/
def lastWins (s : List (Nat × Binding)) (k : Nat) : Option Binding :=
  (s.reverse.find? (fun p => p.1 == k)).map (fun p => p.2)

mutual
/-- No invalid elements (builders or unrecognized values) anywhere in
a raw binding. -/
def rawWF : RawBinding → Bool
  | RawBinding.binding _ => true
  | RawBinding.typ _ => true
  | RawBinding.nested bs => rawWFList bs
  | RawBinding.builder _ => false
  | RawBinding.other => false

def rawWFList : List RawBinding → Bool
  | [] => true
  | b :: rest => rawWF b && rawWFList rest
end

/-- `Injector._createListOfBindings`: a fixed-size array of
`numberOfKeys + 1` entries populated from the flat map. -/
def createListOfBindings (numKeys : Nat) (m : BMap) : List (Option Binding) :=
  (List.range (numKeys + 1)).map (fun i => mapGet m i)

/-- The `Injector` constructor: flatten the raw bindings, build the
binding array and a fresh empty instance array
(`ListWrapper.createFixedSize(Key.numberOfKeys() + 1)`), link the
parent.  The node is appended to the injector tree and its index
returned. -/
def newInjector (numKeys : Nat) (raws : List RawBinding) (parent : Option Nat)
    (st : DIState) : Except DIErr (Nat × DIState) :=
  match flattenBindings raws [] with
  | Except.error e => Except.error e
  | Except.ok m =>
    let node : InjNode :=
      ⟨createListOfBindings numKeys m, List.replicate (numKeys + 1) Obj.vnull, parent⟩
    Except.ok (st.injectors.length, { st with injectors := st.injectors ++ [node] })

/-! ### Basic list-access lemmas for the slot arrays -/

theorem getD_set_self {α : Type} : ∀ (l : List α) (i : Nat) (v d : α),
    i < l.length → (l.set i v).getD i d = v := by
  intro l
  induction l with
  | nil => intro i v d h; simp at h
  | cons a t ih =>
    intro i v d h
    cases i with
    | zero => simp [List.set]
    | succ j =>
      simp only [List.set, List.getD_cons_succ]
      exact ih j v d (by simpa using h)

theorem getD_set_other {α : Type} : ∀ (l : List α) (i j : Nat) (v d : α),
    j ≠ i → (l.set i v).getD j d = l.getD j d := by
  intro l
  induction l with
  | nil => intro i j v d _; simp [List.set]
  | cons a t ih =>
    intro i j v d hne
    cases i with
    | zero =>
      cases j with
      | zero => exact absurd rfl hne
      | succ j' => simp [List.set]
    | succ i' =>
      cases j with
      | zero => simp [List.set]
      | succ j' =>
        simp only [List.set, List.getD_cons_succ]
        exact ih i' j' v d (fun h => hne (by rw [h]))

theorem set_of_length_le {α : Type} : ∀ (l : List α) (i : Nat) (v : α),
    l.length ≤ i → l.set i v = l := by
  intro l
  induction l with
  | nil => intro i v _; rfl
  | cons a t ih =>
    intro i v h
    cases i with
    | zero => simp at h
    | succ j => simp only [List.set]; rw [ih j v (by simpa using h)]

theorem set_getD_self {α : Type} : ∀ (l : List α) (i : Nat) (d : α),
    i < l.length → l.set i (l.getD i d) = l := by
  intro l
  induction l with
  | nil => intro i d h; simp at h
  | cons a t ih =>
    intro i d h
    cases i with
    | zero => simp [List.set]
    | succ j =>
      simp only [List.set, List.getD_cons_succ]
      rw [ih j d (by simpa using h)]

theorem getD_map {α β : Type} (f : α → β) :
    ∀ (l : List α) (i : Nat) (d : α), (l.map f).getD i (f d) = f (l.getD i d) := by
  intro l
  induction l with
  | nil => intro i d; simp
  | cons a t ih =>
    intro i d
    cases i with
    | zero => simp
    | succ j => simpa using ih j d

theorem getD_pad_last {α : Type} : ∀ (l : List α) (i : Nat) (v d : α),
    ¬ i < l.length → (l ++ List.replicate (i - l.length) d ++ [v]).getD i d = v := by
  intro l
  induction l with
  | nil =>
    intro i v d _
    simp only [List.nil_append, List.length_nil, Nat.sub_zero]
    induction i with
    | zero => simp
    | succ j ihj => simpa using ihj
  | cons a t ih =>
    intro i v d h
    cases i with
    | zero => simp at h
    | succ j =>
      have : ¬ j < t.length := by
        intro hj; exact h (by simpa using Nat.succ_lt_succ hj)
      simpa using ih j v d this

theorem getD_replicate_append {α : Type} : ∀ (i j : Nat) (v d : α), j ≠ i →
    (List.replicate i d ++ [v]).getD j d = d := by
  intro i
  induction i with
  | zero =>
    intro j v d hne
    cases j with
    | zero => exact absurd rfl hne
    | succ j' => simp
  | succ i' ih =>
    intro j v d hne
    cases j with
    | zero => simp [List.replicate]
    | succ j' =>
      have : (List.replicate (i' + 1) d ++ [v]).getD (j' + 1) d
          = (List.replicate i' d ++ [v]).getD j' d := by
        simp [List.replicate]
      rw [this]
      exact ih j' v d (fun h => hne (by rw [h]))

theorem getD_pad_other {α : Type} : ∀ (l : List α) (i j : Nat) (v d : α),
    ¬ i < l.length → j ≠ i →
    (l ++ List.replicate (i - l.length) d ++ [v]).getD j d = l.getD j d := by
  intro l
  induction l with
  | nil =>
    intro i j v d _ hne
    simp only [List.nil_append, List.length_nil, Nat.sub_zero, List.getD_nil]
    exact getD_replicate_append i j v d hne
  | cons a t ih =>
    intro i j v d h hne
    cases i with
    | zero => simp at h
    | succ i' =>
      have hi : ¬ i' < t.length := by
        intro hj; exact h (by simpa using Nat.succ_lt_succ hj)
      cases j with
      | zero => simp
      | succ j' =>
        have := ih i' j' v d hi (fun hh => hne (by rw [hh]))
        simpa using this

theorem listGetD_listSetD_self (l : List Obj) (i : Nat) (v : Obj) :
    listGetD (listSetD l i v) i = v := by
  unfold listGetD listSetD
  by_cases h : i < l.length
  · simp only [h, if_pos]
    exact getD_set_self l i v Obj.vnull h
  · simp only [h, if_neg, not_false_iff]
    exact getD_pad_last l i v Obj.vnull h

theorem listGetD_listSetD_other (l : List Obj) (i j : Nat) (v : Obj) (hne : j ≠ i) :
    listGetD (listSetD l i v) j = listGetD l j := by
  unfold listGetD listSetD
  by_cases h : i < l.length
  · simp only [h, if_pos]
    exact getD_set_other l i j v Obj.vnull hne
  · simp only [h, if_neg, not_false_iff]
    exact getD_pad_other l i j v Obj.vnull h hne

/-! ### State-access lemmas -/

theorem futures_setInstance (st : DIState) (i k : Nat) (v : Obj) :
    (setInstance st i k v).futures = st.futures := rfl

theorem tasks_setInstance (st : DIState) (i k : Nat) (v : Obj) :
    (setInstance st i k v).tasks = st.tasks := rfl

theorem nextTag_setInstance (st : DIState) (i k : Nat) (v : Obj) :
    (setInstance st i k v).nextTag = st.nextTag := rfl

theorem calls_setInstance (st : DIState) (i k : Nat) (v : Obj) :
    (setInstance st i k v).calls = st.calls := rfl

theorem injectors_length_setInstance (st : DIState) (i k : Nat) (v : Obj) :
    (setInstance st i k v).injectors.length = st.injectors.length := by
  simp [setInstance, mapNode]

theorem injNode_setInstance_self (st : DIState) (i : Nat) (k : Nat) (v : Obj)
    (h : i < st.injectors.length) :
    injNode (setInstance st i k v) i
      = { injNode st i with instances := listSetD (injNode st i).instances k v } := by
  simp only [setInstance, mapNode, injNode]
  exact getD_set_self st.injectors i _ emptyNode h

theorem injNode_setInstance_other (st : DIState) (i i' : Nat) (k : Nat) (v : Obj)
    (h : i' ≠ i) :
    injNode (setInstance st i k v) i' = injNode st i' := by
  simp only [setInstance, mapNode, injNode]
  exact getD_set_other st.injectors i i' _ emptyNode h

theorem getInstance_setInstance_self (st : DIState) (i k : Nat) (v : Obj)
    (h : i < st.injectors.length) :
    getInstance (setInstance st i k v) i k = v := by
  simp only [getInstance, injNode_setInstance_self st i k v h]
  exact listGetD_listSetD_self _ k v

theorem setInstance_of_length_le (st : DIState) (i k : Nat) (v : Obj)
    (h : st.injectors.length ≤ i) : setInstance st i k v = st := by
  simp only [setInstance, mapNode]
  rw [set_of_length_le st.injectors i _ h]

theorem getInstance_setInstance_diffkey (st : DIState) (i k k' : Nat) (v : Obj)
    (h : k' ≠ k) :
    getInstance (setInstance st i k v) i k' = getInstance st i k' := by
  by_cases hi : i < st.injectors.length
  · simp only [getInstance, injNode_setInstance_self st i k v hi]
    exact listGetD_listSetD_other _ k k' v h
  · rw [setInstance_of_length_le st i k v (Nat.le_of_not_lt hi)]

theorem getInstance_setInstance_diffinj (st : DIState) (i i' k k' : Nat) (v : Obj)
    (h : i' ≠ i) :
    getInstance (setInstance st i k v) i' k' = getInstance st i' k' := by
  simp only [getInstance, injNode_setInstance_other st i i' k v h]

/-- The immutable part of the injector tree: binding tables and parent
links (the Binding Table of an injector is immutable after
construction). -/
def skel (st : DIState) : List (List (Option Binding) × Option Nat) :=
  st.injectors.map (fun n => (n.bindings, n.parent))

theorem skel_setInstance (st : DIState) (i k : Nat) (v : Obj) :
    skel (setInstance st i k v) = skel st := by
  by_cases hi : i < st.injectors.length
  · simp only [skel, setInstance, mapNode, List.map_set]
    have hmap : ((injNode st i).bindings, (injNode st i).parent)
        = (List.map (fun n : InjNode => (n.bindings, n.parent)) st.injectors).getD i
            (emptyNode.bindings, emptyNode.parent) := by
      rw [getD_map (fun n : InjNode => (n.bindings, n.parent)) st.injectors i emptyNode]
      rfl
    rw [hmap]
    exact set_getD_self _ i _ (by simpa using hi)
  · rw [setInstance_of_length_le st i k v (Nat.le_of_not_lt hi)]

theorem getBinding_eq_of_skel (st1 st2 : DIState) (h : skel st1 = skel st2)
    (i k : Nat) : getBinding st1 i k = getBinding st2 i k := by
  have h1 : (skel st1).getD i (emptyNode.bindings, emptyNode.parent)
      = (skel st2).getD i (emptyNode.bindings, emptyNode.parent) := by rw [h]
  simp only [skel, getD_map (fun n : InjNode => (n.bindings, n.parent))] at h1
  simp only [getBinding, injNode]
  exact congrArg (fun p => p.1.getD k none) h1

theorem parentOf_eq_of_skel (st1 st2 : DIState) (h : skel st1 = skel st2)
    (i : Nat) : parentOf st1 i = parentOf st2 i := by
  have h1 : (skel st1).getD i (emptyNode.bindings, emptyNode.parent)
      = (skel st2).getD i (emptyNode.bindings, emptyNode.parent) := by rw [h]
  simp only [skel, getD_map (fun n : InjNode => (n.bindings, n.parent))] at h1
  simp only [parentOf, injNode]
  exact congrArg (fun p => p.2) h1

theorem injectors_length_eq_of_skel (st1 st2 : DIState) (h : skel st1 = skel st2) :
    st1.injectors.length = st2.injectors.length := by
  have := congrArg List.length h
  simpa [skel] using this

/-! ### The binding tables and parent links are immutable under lookups -/

theorem skel_recordCall (st : DIState) (i k : Nat) : skel (recordCall st i k) = skel st := rfl

theorem skel_clearInst (st : DIState) (i k : Nat) : skel (clearInst st i k) = skel st :=
  skel_setInstance st i k Obj.vnull

theorem skel_markAsConstructing (st : DIState) (i k : Nat) :
    skel (markAsConstructing st i k) = skel st :=
  skel_setInstance st i k Obj.constructingM

theorem syncReadFromCache_state (st : DIState) (inj : Nat) (key : Key) :
    (syncReadFromCache st inj key).2 = st := by
  unfold syncReadFromCache
  split
  · rfl
  · split
    · rfl
    · split <;> rfl

theorem skel_asyncReadFromCache (st : DIState) (inj : Nat) (key : Key) :
    skel (asyncReadFromCache st inj key).2 = skel st := by
  unfold asyncReadFromCache allocFuture
  split
  · rfl
  · split
    · rfl
    · split <;> rfl

theorem skel_futures_update (st : DIState) (fs : List FutState) :
    skel { st with futures := fs } = skel st := rfl
theorem skel_resolveDepsLoop
    (rec : Nat → Key → Bool → Bool → DIState → Except DIErr Obj × DIState)
    (hrec : ∀ i k rf rl st, skel ((rec i k rf rl st).2) = skel st)
    (inj : Nat) (fa : Bool) : ∀ (ds : List Dep) (st : DIState),
    skel ((resolveDepsLoop rec inj fa ds st).2) = skel st := by
  intro ds
  induction ds with
  | nil => intro st; rfl
  | cons d rest ih =>
    intro st
    have h0 := hrec inj d.key (fa || d.asFuture) d.lazy st
    simp only [resolveDepsLoop]
    rcases h1 : rec inj d.key (fa || d.asFuture) d.lazy st with ⟨r, st1⟩
    rw [h1] at h0
    cases r with
    | error e => exact h0
    | ok v =>
      have h2 := ih st1
      rcases h3 : resolveDepsLoop rec inj fa rest st1 with ⟨r2, st2⟩
      rw [h3] at h2
      simp only [h3]
      cases r2 with
      | error e => exact h2.trans h0
      | ok vs => exact h2.trans h0

theorem skel_resolveDependencies
    (rec : Nat → Key → Bool → Bool → DIState → Except DIErr Obj × DIState)
    (hrec : ∀ i k rf rl st, skel ((rec i k rf rl st).2) = skel st)
    (inj : Nat) (key : Key) (b : Binding) (fa : Bool) (st : DIState) :
    skel ((resolveDependencies rec inj key b fa st).2) = skel st := by
  have h0 := skel_resolveDepsLoop rec hrec inj fa b.dependencies st
  unfold resolveDependencies
  rcases h1 : resolveDepsLoop rec inj fa b.dependencies st with ⟨r, st1⟩
  rw [h1] at h0
  cases r with
  | error e => exact (skel_clearInst st1 inj key.id).trans h0
  | ok vs => exact h0

theorem skel_createInstance (inj : Nat) (key : Key) (b : Binding) (deps : List Obj)
    (st : DIState) : skel ((createInstance inj key b deps st).2) = skel st := by
  simp only [createInstance]
  rcases h : b.factory deps st.nextTag with e | v
  · exact skel_clearInst (recordCall st inj key.id) inj key.id
  · exact skel_setInstance (recordCall st inj key.id) inj key.id v

theorem skel_syncInstantiate
    (rec : Nat → Key → Bool → Bool → DIState → Except DIErr Obj × DIState)
    (hrec : ∀ i k rf rl st, skel ((rec i k rf rl st).2) = skel st)
    (inj : Nat) (key : Key) (st : DIState) :
    skel ((syncInstantiate rec inj key st).2) = skel st := by
  unfold syncInstantiate
  cases getBinding st inj key.id with
  | none => rfl
  | some b =>
    simp only []
    split
    · rfl
    · have h0 := skel_resolveDependencies rec hrec inj key b false (markAsConstructing st inj key.id)
      rw [skel_markAsConstructing] at h0
      rcases h1 : resolveDependencies rec inj key b false (markAsConstructing st inj key.id)
        with ⟨r, st2⟩
      rw [h1] at h0
      cases r with
      | error e => exact h0
      | ok deps => exact (skel_createInstance inj key b deps st2).trans h0

theorem skel_asyncInstantiate
    (rec : Nat → Key → Bool → Bool → DIState → Except DIErr Obj × DIState)
    (hrec : ∀ i k rf rl st, skel ((rec i k rf rl st).2) = skel st)
    (inj : Nat) (key : Key) (st : DIState) :
    skel ((asyncInstantiate rec inj key st).2) = skel st := by
  unfold asyncInstantiate allocFuture
  cases getBinding st inj key.id with
  | none => rfl
  | some b =>
    simp only []
    have h0 := skel_resolveDependencies rec hrec inj key b true (markAsConstructing st inj key.id)
    rw [skel_markAsConstructing] at h0
    rcases h1 : resolveDependencies rec inj key b true (markAsConstructing st inj key.id)
      with ⟨r, st2⟩
    rw [h1] at h0
    cases r with
    | error e => exact h0
    | ok deps =>
      simp only []
      exact (skel_setInstance _ inj key.id _).trans h0

theorem skel_getByKey : ∀ (fuel : Nat) (inj : Nat) (key : Key) (rf rl : Bool) (st : DIState),
    skel ((getByKey fuel inj key rf rl st).2) = skel st := by
  intro fuel
  induction fuel with
  | zero => intro inj key rf rl st; rfl
  | succ fuel ih =>
    intro inj key rf rl st
    have hread : skel (if rf then asyncReadFromCache st inj key
        else syncReadFromCache st inj key).2 = skel st := by
      cases rf with
      | true => simpa using skel_asyncReadFromCache st inj key
      | false => simp [syncReadFromCache_state]
    have hinst : ∀ st1 : DIState, skel (if rf then asyncInstantiate (getByKey fuel) inj key st1
        else syncInstantiate (getByKey fuel) inj key st1).2 = skel st1 := by
      intro st1
      cases rf with
      | true => simpa using skel_asyncInstantiate (getByKey fuel) ih inj key st1
      | false => simpa using skel_syncInstantiate (getByKey fuel) ih inj key st1
    simp only [getByKey]
    split
    · rfl
    · split
      · rename_i e st1 heq
        rw [heq] at hread
        simpa using hread
      · rename_i v st1 heq
        rw [heq] at hread
        simpa using hread
      · rename_i st1 heq
        rw [heq] at hread
        simp only at hread
        split
        · rename_i e st2 heq2
          have h2 := hinst st1
          rw [heq2] at h2
          simp only at h2
          simpa [h2] using hread
        · rename_i v st2 heq2
          have h2 := hinst st1
          rw [heq2] at h2
          simp only at h2
          split
          · simpa [h2] using hread
          · split
            · rename_i p hp
              rw [ih, h2]
              simpa using hread
            · simpa [h2] using hread

theorem getBinding_getByKey (fuel inj : Nat) (key : Key) (rf rl : Bool) (st : DIState)
    (i k : Nat) :
    getBinding ((getByKey fuel inj key rf rl st).2) i k = getBinding st i k :=
  getBinding_eq_of_skel _ _ (skel_getByKey fuel inj key rf rl st) i k

theorem parentOf_getByKey (fuel inj : Nat) (key : Key) (rf rl : Bool) (st : DIState)
    (i : Nat) :
    parentOf ((getByKey fuel inj key rf rl st).2) i = parentOf st i :=
  parentOf_eq_of_skel _ _ (skel_getByKey fuel inj key rf rl st) i

theorem injectors_length_getByKey (fuel inj : Nat) (key : Key) (rf rl : Bool)
    (st : DIState) :
    ((getByKey fuel inj key rf rl st).2).injectors.length = st.injectors.length :=
  injectors_length_eq_of_skel _ _ (skel_getByKey fuel inj key rf rl st)

theorem injectors_length_resolveDependencies (fuel inj : Nat) (key : Key) (b : Binding)
    (fa : Bool) (st : DIState) :
    ((resolveDependencies (getByKey fuel) inj key b fa st).2).injectors.length
      = st.injectors.length :=
  injectors_length_eq_of_skel _ _
    (skel_resolveDependencies (getByKey fuel) (fun i k rf rl s => skel_getByKey fuel i k rf rl s)
      inj key b fa st)

theorem getD_of_length_le {α : Type} : ∀ (l : List α) (i : Nat) (d : α),
    l.length ≤ i → l.getD i d = d := by
  intro l
  induction l with
  | nil => intro i d _; simp
  | cons a t ih =>
    intro i d h
    cases i with
    | zero => simp at h
    | succ j => simpa using ih j d (by simpa using h)

/-- A key id with a binding pins its injector index inside the tree. -/
theorem inj_lt_of_getBinding (st : DIState) (inj k : Nat) (b : Binding)
    (hb : getBinding st inj k = some b) : inj < st.injectors.length := by
  by_contra h
  have hnode : injNode st inj = emptyNode :=
    getD_of_length_le st.injectors inj emptyNode (Nat.le_of_not_lt h)
  rw [getBinding, hnode] at hb
  simp [emptyNode] at hb

/-- A factory that only ever produces genuine user values: never the
Dart `null` and never one of the private slot markers (which the
source code cannot obtain from user code, `_constructing` and
`_Waiting` being module-private). -/
def CleanFactory (b : Binding) : Prop :=
  ∀ deps tag v, b.factory deps tag = Except.ok v →
    v ≠ Obj.vnull ∧ v ≠ Obj.constructingM ∧ isWaiting v = false

/-- A present, non-waiting, non-marker slot value is served straight
from the instance slot array by a sync lookup, with no state change. -/
theorem syncGet_cacheHit (fuel inj : Nat) (key : Key) (st : DIState) (v : Obj)
    (hk : key.tokenIsInjector = false)
    (hs : getInstance st inj key.id = v)
    (hv : v ≠ Obj.vnull) (hc : v ≠ Obj.constructingM) (hw : isWaiting v = false) :
    getByKey (fuel + 1) inj key false false st = (Except.ok v, st) := by
  have hp : isPresent v = true := by simp [isPresent, hv]
  simp [getByKey, syncReadFromCache, hk, hs, hc, hp, hw]

/-- A successful sync lookup on an injector that has a local binding
with a clean factory is served locally: the returned value is left in
that injector's slot and is a genuine user value. -/
theorem syncGet_servedLocal (fuel inj : Nat) (key : Key) (b : Binding)
    (st st' : DIState) (v : Obj)
    (hk : key.tokenIsInjector = false)
    (hb : getBinding st inj key.id = some b)
    (hcf : CleanFactory b)
    (h1 : getByKey (fuel + 1) inj key false false st = (Except.ok v, st')) :
    getInstance st' inj key.id = v ∧ v ≠ Obj.vnull ∧ v ≠ Obj.constructingM ∧
      isWaiting v = false := by
  simp only [getByKey, hk, Bool.false_eq_true, if_false] at h1
  by_cases hcon : getInstance st inj key.id = Obj.constructingM
  · simp [syncReadFromCache, hk, hcon] at h1
  · by_cases hhit : (isPresent (getInstance st inj key.id)
        && !isWaiting (getInstance st inj key.id)) = true
    · simp only [syncReadFromCache, hk, hcon, hhit, Bool.false_eq_true, if_false,
        if_true, if_neg, ite_true] at h1
      have hv : getInstance st inj key.id = v ∧ st = st' := by
        constructor
        · exact congrArg (fun p => match p.1 with
            | Except.ok w => w
            | _ => Obj.vnull) h1
        · exact congrArg Prod.snd h1
      rcases hv with ⟨hv1, hv2⟩
      rcases (Bool.and_eq_true _ _).mp hhit with ⟨hp, hnw⟩
      refine ⟨by rw [← hv2, hv1], ?_, ?_, ?_⟩
      · intro hnull; rw [hv1] at hp; rw [hnull] at hp; simp [isPresent] at hp
      · rw [← hv1]; exact hcon
      · rw [← hv1]; simpa using hnw
    · -- cache miss: the local binding is instantiated
      simp only [syncReadFromCache, hk, hcon, hhit, Bool.false_eq_true, if_false,
        ite_false, ite_true] at h1
      rcases hi : syncInstantiate (getByKey fuel) inj key st with ⟨ri, sti⟩
      rw [hi] at h1
      simp only [syncInstantiate, hb] at hi
      by_cases hpf : b.providedAsFuture = true
      · rw [if_pos hpf] at hi
        have : ri = Except.error (DIErr.asyncBinding [key.id]) :=
          (congrArg Prod.fst hi).symm
        rw [this] at h1
        simp at h1
      · rw [if_neg hpf] at hi
        rcases hrd : resolveDependencies (getByKey fuel) inj key b false
            (markAsConstructing st inj key.id) with ⟨rd, st2⟩
        rw [hrd] at hi
        cases rd with
        | error e =>
          simp only [] at hi
          have : ri = Except.error e := (congrArg Prod.fst hi).symm
          rw [this] at h1
          simp at h1
        | ok deps =>
          simp only [createInstance] at hi
          rcases hf : b.factory deps st2.nextTag with e | w
          · rw [hf] at hi
            have : ri = Except.error (DIErr.instantiation [key.id]) :=
              (congrArg Prod.fst hi).symm
            rw [this] at h1
            simp at h1
          · rw [hf] at hi
            have hri : ri = Except.ok w := (congrArg Prod.fst hi).symm
            have hsti : sti = setInstance (recordCall st2 inj key.id) inj key.id w :=
              (congrArg Prod.snd hi).symm
            rcases hcf deps st2.nextTag w hf with ⟨hw1, hw2, hw3⟩
            have hpw : isPresent w = true := by simp [isPresent, hw1]
            rw [hri] at h1
            simp only [hpw, if_true, ite_true] at h1
            have hv : w = v := congrArg (fun p => match p.1 with
              | Except.ok u => u
              | _ => Obj.vnull) h1
            have hst : sti = st' := congrArg Prod.snd h1
            have hlen : inj < (recordCall st2 inj key.id).injectors.length := by
              have e1 : st2.injectors.length = st.injectors.length := by
                have := injectors_length_resolveDependencies fuel inj key b false
                  (markAsConstructing st inj key.id)
                rw [hrd] at this
                simpa [markAsConstructing, injectors_length_setInstance] using this
              have : inj < st2.injectors.length := by
                rw [e1]; exact inj_lt_of_getBinding st inj key.id b hb
              simpa [recordCall] using this
            refine ⟨?_, by rw [← hv]; exact hw1, by rw [← hv]; exact hw2,
              by rw [← hv]; exact hw3⟩
            rw [← hst, hsti, ← hv]
            exact getInstance_setInstance_self _ inj key.id w hlen

/-- C1: for every token `t` bound on injector `I` whose sync
resolution succeeds, two consecutive `get(t)` calls on `I` return the
identical instance and the binding's factory is not re-invoked: the
second call is a pure cache hit from the instance slot array — it
returns the same value, leaves the state unchanged, and records no new
factory invocation. -/
theorem C1_sync_cache_coherence (fuel fuel2 inj : Nat) (key : Key) (b : Binding)
    (st st' : DIState) (v : Obj)
    (hk : key.tokenIsInjector = false)
    (hb : getBinding st inj key.id = some b)
    (hcf : CleanFactory b)
    (h1 : getByKey (fuel + 1) inj key false false st = (Except.ok v, st')) :
    getByKey (fuel2 + 1) inj key false false st' = (Except.ok v, st') ∧
      ((getByKey (fuel2 + 1) inj key false false st').2).calls = st'.calls := by
  rcases syncGet_servedLocal fuel inj key b st st' v hk hb hcf h1 with ⟨hs, hv, hc, hw⟩
  have h2 := syncGet_cacheHit fuel2 inj key st' v hk hs hv hc hw
  exact ⟨h2, by rw [h2]⟩

def c1b : Binding := ⟨⟨0, false⟩, fun _ tag => Except.ok (Obj.vref tag), [], false⟩

def c1st : DIState := ⟨[⟨[some c1b], [Obj.vnull], none⟩], [], [], 0, []⟩

def c1st' : DIState := (getByKey 1 0 ⟨0, false⟩ false false c1st).2

/-- Witness for C1 at a concrete injector: one binding for key 0 whose
factory allocates a fresh object. -/
theorem C1_witness :
    (getBinding c1st 0 0 = some c1b ∧
     getByKey 1 0 ⟨0, false⟩ false false c1st = (Except.ok (Obj.vref 0), c1st')) ∧
    (getByKey 1 0 ⟨0, false⟩ false false c1st' = (Except.ok (Obj.vref 0), c1st') ∧
      ((getByKey 1 0 ⟨0, false⟩ false false c1st').2).calls = c1st'.calls) :=
  ⟨⟨rfl, rfl⟩,
   C1_sync_cache_coherence 0 0 0 ⟨0, false⟩ c1b c1st c1st' (Obj.vref 0) rfl rfl
     (fun _ _ _ h => by
       cases h
       exact ⟨fun hh => Obj.noConfusion hh, fun hh => Obj.noConfusion hh, rfl⟩)
     rfl⟩

/-- C8: a synchronous `get` that reaches an async-only local binding
(`providedAsFuture`) fails with `AsyncBindingError`, and the failure
happens before the construction marker is written: the state — in
particular the slot for `t`, which stays empty — is completely
unchanged. -/
theorem C8_sync_get_async_binding (fuel inj : Nat) (key : Key) (b : Binding)
    (st : DIState)
    (hk : key.tokenIsInjector = false)
    (hb : getBinding st inj key.id = some b)
    (hpf : b.providedAsFuture = true)
    (hs : getInstance st inj key.id = Obj.vnull) :
    getByKey (fuel + 1) inj key false false st
      = (Except.error (DIErr.asyncBinding [key.id]), st) ∧
    getInstance st inj key.id = Obj.vnull := by
  refine ⟨?_, hs⟩
  simp [getByKey, syncReadFromCache, hk, hs, isPresent, syncInstantiate, hb, hpf]

def c8b : Binding := ⟨⟨0, false⟩, fun _ tag => Except.ok (Obj.vref tag), [], true⟩

def c8st : DIState := ⟨[⟨[some c8b], [Obj.vnull], none⟩], [], [], 0, []⟩

/-- Witness for C8: an async-only binding for key 0 hit by a sync get. -/
theorem C8_witness :
    (getBinding c8st 0 0 = some c8b ∧ c8b.providedAsFuture = true ∧
     getInstance c8st 0 0 = Obj.vnull) ∧
    (getByKey 1 0 ⟨0, false⟩ false false c8st
      = (Except.error (DIErr.asyncBinding [0]), c8st) ∧
     getInstance c8st 0 0 = Obj.vnull) :=
  ⟨⟨rfl, rfl, rfl⟩, C8_sync_get_async_binding 0 0 ⟨0, false⟩ c8b c8st rfl rfl rfl rfl⟩

/-- C10: a sync `get` issued while an async resolution of the same
token is pending on the same injector ignores the pending computation:
the `_Waiting` slot is treated as a cache miss, the construction
marker overwrites it, and a second, independent construction runs —
the factory is invoked again, the sync result is stored in the slot,
and the pending future is left untouched. -/
theorem C10_sync_ignores_pending (fuel inj : Nat) (key : Key) (b : Binding)
    (st : DIState) (f : Nat) (w : Obj)
    (hk : key.tokenIsInjector = false)
    (hb : getBinding st inj key.id = some b)
    (hpf : b.providedAsFuture = false)
    (hd : b.dependencies = [])
    (hs : getInstance st inj key.id = Obj.waitingM f)
    (hf : b.factory [] st.nextTag = Except.ok w)
    (hw : w ≠ Obj.vnull) :
    getByKey (fuel + 1) inj key false false st
      = (Except.ok w,
         setInstance (recordCall (markAsConstructing st inj key.id) inj key.id)
           inj key.id w) ∧
    getInstance ((getByKey (fuel + 1) inj key false false st).2) inj key.id = w ∧
    ((getByKey (fuel + 1) inj key false false st).2).calls
      = st.calls ++ [(inj, key.id)] ∧
    ((getByKey (fuel + 1) inj key false false st).2).futures = st.futures := by
  have hp : isPresent w = true := by simp [isPresent, hw]
  have hmain : getByKey (fuel + 1) inj key false false st
      = (Except.ok w,
         setInstance (recordCall (markAsConstructing st inj key.id) inj key.id)
           inj key.id w) := by
    simp [getByKey, syncReadFromCache, hk, hs, isPresent, isWaiting, syncInstantiate,
      hb, hpf, resolveDependencies, resolveDepsLoop, hd, createInstance,
      markAsConstructing, nextTag_setInstance, hf, hp]
    exact fun hnull => absurd hnull hw
  refine ⟨hmain, ?_, ?_, ?_⟩
  · rw [hmain]
    have hlen : inj < (recordCall (markAsConstructing st inj key.id) inj key.id).injectors.length := by
      have := inj_lt_of_getBinding st inj key.id b hb
      simpa [recordCall, markAsConstructing, injectors_length_setInstance] using this
    exact getInstance_setInstance_self _ inj key.id w hlen
  · rw [hmain]; simp [calls_setInstance, recordCall, markAsConstructing, calls_setInstance]
  · rw [hmain]; simp [futures_setInstance, recordCall, markAsConstructing, futures_setInstance]

def c10b : Binding := ⟨⟨0, false⟩, fun _ tag => Except.ok (Obj.vref tag), [], false⟩

def c10st : DIState :=
  ⟨[⟨[some c10b], [Obj.waitingM 0], none⟩], [FutState.pending], [], 3, []⟩

/-- Witness for C10: key 0 has a pending async resolution (future 0)
when a sync get arrives. -/
theorem C10_witness :
    (getBinding c10st 0 0 = some c10b ∧ getInstance c10st 0 0 = Obj.waitingM 0 ∧
     c10b.factory [] c10st.nextTag = Except.ok (Obj.vref 3)) ∧
    (getByKey 1 0 ⟨0, false⟩ false false c10st
      = (Except.ok (Obj.vref 3),
         setInstance (recordCall (markAsConstructing c10st 0 0) 0 0) 0 0 (Obj.vref 3)) ∧
     getInstance ((getByKey 1 0 ⟨0, false⟩ false false c10st).2) 0 0 = Obj.vref 3 ∧
     ((getByKey 1 0 ⟨0, false⟩ false false c10st).2).calls = c10st.calls ++ [(0, 0)] ∧
     ((getByKey 1 0 ⟨0, false⟩ false false c10st).2).futures = c10st.futures) :=
  ⟨⟨rfl, rfl, rfl⟩,
   C10_sync_ignores_pending 0 0 ⟨0, false⟩ c10b c10st 0 (Obj.vref 3) rfl rfl rfl rfl rfl rfl
     (fun hh => Obj.noConfusion hh)⟩

theorem parentOf_setInstance (st : DIState) (i k : Nat) (v : Obj) (i' : Nat) :
    parentOf (setInstance st i k v) i' = parentOf st i' :=
  parentOf_eq_of_skel _ _ (skel_setInstance st i k v) i'

theorem getBinding_setInstance (st : DIState) (i k : Nat) (v : Obj) (i' k' : Nat) :
    getBinding (setInstance st i k v) i' k' = getBinding st i' k' :=
  getBinding_eq_of_skel _ _ (skel_setInstance st i k v) i' k'

/-- A root binding with no dependencies whose factory produces `null`:
the sync lookup stores the `null` (leaving the slot in the empty
state), fails to see a present instance, and — the injector being a
root — ends in `NoProviderError`; the factory was invoked. -/
theorem nullFactory_syncGet (fuel inj : Nat) (key : Key) (b : Binding) (st : DIState)
    (hk : key.tokenIsInjector = false)
    (hroot : parentOf st inj = none)
    (hb : getBinding st inj key.id = some b)
    (hpf : b.providedAsFuture = false)
    (hd : b.dependencies = [])
    (hs : getInstance st inj key.id = Obj.vnull)
    (hf : ∀ tag, b.factory [] tag = Except.ok Obj.vnull) :
    getByKey (fuel + 1) inj key false false st
      = (Except.error (DIErr.noProvider [key.id]),
         setInstance (recordCall (markAsConstructing st inj key.id) inj key.id)
           inj key.id Obj.vnull) := by
  have hrc : ∀ (st' : DIState) (i k j : Nat),
      parentOf (recordCall st' i k) j = parentOf st' j := fun _ _ _ _ => rfl
  have hpar : parentOf (setInstance (recordCall (setInstance st inj key.id
      Obj.constructingM) inj key.id) inj key.id Obj.vnull) inj = none := by
    rw [parentOf_setInstance, hrc, parentOf_setInstance]
    exact hroot
  simp [getByKey, syncReadFromCache, hk, hs, isPresent, syncInstantiate, hb, hpf,
    resolveDependencies, resolveDepsLoop, hd, createInstance, markAsConstructing,
    hf, hpar]

/-- C6 amended: a `null` produced by a factory is NOT distinguishable
from an empty slot.  Storing the factory's `null` leaves the slot in
the empty state, the sync lookup falls through (for a root injector it
fails with `NoProviderError` naming the token), and a second lookup
re-invokes the factory instead of hitting the cache. -/
theorem C6_null_is_empty (fuel fuel2 inj : Nat) (key : Key) (b : Binding)
    (st : DIState)
    (hk : key.tokenIsInjector = false)
    (hroot : parentOf st inj = none)
    (hb : getBinding st inj key.id = some b)
    (hpf : b.providedAsFuture = false)
    (hd : b.dependencies = [])
    (hs : getInstance st inj key.id = Obj.vnull)
    (hf : ∀ tag, b.factory [] tag = Except.ok Obj.vnull) :
    (getByKey (fuel + 1) inj key false false st).1
        = Except.error (DIErr.noProvider [key.id]) ∧
    getInstance ((getByKey (fuel + 1) inj key false false st).2) inj key.id
        = Obj.vnull ∧
    ((getByKey (fuel + 1) inj key false false st).2).calls
        = st.calls ++ [(inj, key.id)] ∧
    ((getByKey (fuel2 + 1) inj key false false
        ((getByKey (fuel + 1) inj key false false st).2)).2).calls
      = st.calls ++ [(inj, key.id), (inj, key.id)] := by
  have h1 := nullFactory_syncGet fuel inj key b st hk hroot hb hpf hd hs hf
  have hlen : inj < st.injectors.length := inj_lt_of_getBinding st inj key.id b hb
  have hlen2 : inj < (recordCall (markAsConstructing st inj key.id)
      inj key.id).injectors.length := by
    simpa [recordCall, markAsConstructing, injectors_length_setInstance] using hlen
  have hs' : getInstance ((getByKey (fuel + 1) inj key false false st).2) inj key.id
      = Obj.vnull := by
    rw [h1]
    exact getInstance_setInstance_self _ inj key.id Obj.vnull hlen2
  have hb' : getBinding ((getByKey (fuel + 1) inj key false false st).2) inj key.id
      = some b := by rw [getBinding_getByKey]; exact hb
  have hroot' : parentOf ((getByKey (fuel + 1) inj key false false st).2) inj
      = none := by rw [parentOf_getByKey]; exact hroot
  have h2 := nullFactory_syncGet fuel2 inj key b
    ((getByKey (fuel + 1) inj key false false st).2) hk hroot' hb' hpf hd hs' hf
  have hcalls1 : ((getByKey (fuel + 1) inj key false false st).2).calls
      = st.calls ++ [(inj, key.id)] := by rw [h1]; rfl
  refine ⟨by rw [h1], hs', hcalls1, ?_⟩
  rw [h2]
  show ((getByKey (fuel + 1) inj key false false st).2).calls ++ [(inj, key.id)]
      = st.calls ++ [(inj, key.id), (inj, key.id)]
  rw [hcalls1, List.append_assoc]
  rfl

def c6b : Binding := ⟨⟨0, false⟩, fun _ _ => Except.ok Obj.vnull, [], false⟩

def c6st : DIState := ⟨[⟨[some c6b], [Obj.vnull], none⟩], [], [], 0, []⟩

/-- Counterexample to C6 as stated: for a binding whose factory
returns `null`, the slot is NOT in a resolved state after a lookup —
the lookup itself fails with `NoProviderError`, the slot reads back as
empty, and a second `get` re-invokes the factory (two recorded
invocations) instead of being served from the instance slot array. -/
theorem C6_counterexample :
    (getByKey 1 0 ⟨0, false⟩ false false c6st).1
        = Except.error (DIErr.noProvider [0]) ∧
    getInstance ((getByKey 1 0 ⟨0, false⟩ false false c6st).2) 0 0 = Obj.vnull ∧
    ((getByKey 1 0 ⟨0, false⟩ false false
        ((getByKey 1 0 ⟨0, false⟩ false false c6st).2)).2).calls
      = [(0, 0), (0, 0)] :=
  ⟨rfl, rfl, rfl⟩

/-- Witness for the amended C6 at the concrete null-factory binding. -/
theorem C6_witness :
    (getBinding c6st 0 0 = some c6b ∧ parentOf c6st 0 = none ∧
     getInstance c6st 0 0 = Obj.vnull) ∧
    ((getByKey 1 0 ⟨0, false⟩ false false c6st).1
        = Except.error (DIErr.noProvider [0]) ∧
     getInstance ((getByKey 1 0 ⟨0, false⟩ false false c6st).2) 0 0 = Obj.vnull ∧
     ((getByKey 1 0 ⟨0, false⟩ false false c6st).2).calls = c6st.calls ++ [(0, 0)] ∧
     ((getByKey 1 0 ⟨0, false⟩ false false
         ((getByKey 1 0 ⟨0, false⟩ false false c6st).2)).2).calls
       = c6st.calls ++ [(0, 0), (0, 0)]) :=
  ⟨⟨rfl, rfl, rfl⟩,
   C6_null_is_empty 0 0 0 ⟨0, false⟩ c6b c6st rfl rfl rfl rfl rfl rfl (fun _ => rfl)⟩

def c5bA : Binding :=
  ⟨⟨0, false⟩, fun _ tag => Except.ok (Obj.vref tag), [⟨⟨1, false⟩, false, false⟩], false⟩

def c5bB : Binding := ⟨⟨1, false⟩, fun _ _ => Except.error (), [], false⟩

def c5st : DIState :=
  ⟨[⟨[some c5bA, some c5bB], [Obj.vnull, Obj.vnull], none⟩], [], [], 0, []⟩

/-- Counterexample to C5 as stated: token 0 depends on token 1 whose
factory throws, both resolved asynchronously.  After the failed
`asyncGet(0)` — its future fails with the annotated
`InstantiationError` — the slot of token 0 still holds the pending
marker (`_Waiting` of the failed future 1), not empty: the error did
not roll the dependent slot back. -/
theorem C5_counterexample :
    (asyncGet 4 0 0 c5st).1 = Except.ok (Obj.vfut 1) ∧
    futGet (runLoop 4 (asyncGet 4 0 0 c5st).2) 1
      = FutState.failed (DIErr.instantiation [1, 0]) ∧
    getInstance (runLoop 4 (asyncGet 4 0 0 c5st).2) 0 0 = Obj.waitingM 1 :=
  ⟨rfl, rfl, rfl⟩

def c5syncSt : DIState :=
  ⟨[⟨[none, some c5bB], [Obj.vnull, Obj.vnull], none⟩], [], [], 0, []⟩

/-- C5 amended: a synchronous factory failure rolls the slot being
constructed back to empty before `InstantiationError` propagates; but
under the async strategy a dependency failure delivered through a
future leaves the dependent key's pending marker in place — only the
key whose own factory threw is rolled back to empty. -/
theorem C5_rollback_partial :
    (∀ (fuel inj : Nat) (key : Key) (b : Binding) (st : DIState),
      key.tokenIsInjector = false →
      getBinding st inj key.id = some b →
      b.providedAsFuture = false →
      b.dependencies = [] →
      getInstance st inj key.id = Obj.vnull →
      (∀ tag, b.factory [] tag = Except.error ()) →
      getByKey (fuel + 1) inj key false false st
        = (Except.error (DIErr.instantiation [key.id]),
           clearInst (recordCall (markAsConstructing st inj key.id) inj key.id)
             inj key.id) ∧
      getInstance ((getByKey (fuel + 1) inj key false false st).2) inj key.id
        = Obj.vnull) ∧
    (getInstance (runLoop 4 (asyncGet 4 0 0 c5st).2) 0 1 = Obj.vnull ∧
     getInstance (runLoop 4 (asyncGet 4 0 0 c5st).2) 0 0 = Obj.waitingM 1 ∧
     futGet (runLoop 4 (asyncGet 4 0 0 c5st).2) 1
       = FutState.failed (DIErr.instantiation [1, 0])) := by
  refine ⟨?_, rfl, rfl, rfl⟩
  intro fuel inj key b st hk hb hpf hd hs hf
  have hmain : getByKey (fuel + 1) inj key false false st
      = (Except.error (DIErr.instantiation [key.id]),
         clearInst (recordCall (markAsConstructing st inj key.id) inj key.id)
           inj key.id) := by
    simp [getByKey, syncReadFromCache, hk, hs, isPresent, syncInstantiate, hb, hpf,
      resolveDependencies, resolveDepsLoop, hd, createInstance, markAsConstructing,
      clearInst, hf]
  refine ⟨hmain, ?_⟩
  rw [hmain]
  have hlen : inj < (recordCall (markAsConstructing st inj key.id)
      inj key.id).injectors.length := by
    have := inj_lt_of_getBinding st inj key.id b hb
    simpa [recordCall, markAsConstructing, injectors_length_setInstance] using this
  exact getInstance_setInstance_self _ inj key.id Obj.vnull hlen

/-- Witness for the amended C5 at a concrete throwing factory. -/
theorem C5_witness :
    (getBinding c5syncSt 0 1 = some c5bB ∧ getInstance c5syncSt 0 1 = Obj.vnull) ∧
    (getByKey 1 0 ⟨1, false⟩ false false c5syncSt
      = (Except.error (DIErr.instantiation [1]),
         clearInst (recordCall (markAsConstructing c5syncSt 0 1) 0 1) 0 1) ∧
     getInstance ((getByKey 1 0 ⟨1, false⟩ false false c5syncSt).2) 0 1 = Obj.vnull) :=
  ⟨⟨rfl, rfl⟩,
   C5_rollback_partial.1 0 0 ⟨1, false⟩ c5bB c5syncSt rfl rfl rfl rfl rfl (fun _ => rfl)⟩

/-- A delegation path for key id `k`: a list of injector indices, each
linked to the next by its parent pointer, where every node strictly
before the final one has no binding and an empty slot for `k`. -/
def DelegPath (st : DIState) (k : Nat) : List Nat → Prop
  | [] => False
  | [_] => True
  | i :: j :: rest =>
    parentOf st i = some j ∧ getBinding st i k = none ∧
      getInstance st i k = Obj.vnull ∧ DelegPath st k (j :: rest)

/-- Along a delegation path, `_getByKey` on the first node behaves
exactly like `_getByKey` on the last node (both modes): every
intermediate node misses its cache, finds no local binding, and
delegates to its parent without touching the state. -/
theorem getByKey_delegate (key : Key) (rf : Bool) (hk : key.tokenIsInjector = false) :
    ∀ (p : List Nat) (i R fuel : Nat) (st : DIState),
    p.head? = some i → p.getLast? = some R → DelegPath st key.id p →
    getByKey (fuel + p.length) i key rf false st
      = getByKey (fuel + 1) R key rf false st := by
  intro p
  induction p with
  | nil => intro i R fuel st h; simp at h
  | cons a q ih =>
    intro i R fuel st hh hl hd
    have hia : i = a := by simpa using hh.symm
    subst hia
    cases q with
    | nil =>
      have hra : R = i := by simpa using hl.symm
      subst hra
      rfl
    | cons b q' =>
      rcases hd with ⟨hpar, hbind, hslot, hd'⟩
      have hlen : fuel + (i :: b :: q').length = (fuel + (b :: q').length) + 1 := by
        simp [List.length]; omega
      rw [hlen]
      have hstep : getByKey ((fuel + (b :: q').length) + 1) i key rf false st
          = getByKey (fuel + (b :: q').length) b key rf false st := by
        cases rf with
        | false =>
          simp [getByKey, syncReadFromCache, hk, hslot, isPresent, syncInstantiate,
            hbind, hpar]
        | true =>
          simp [getByKey, asyncReadFromCache, hk, hslot, isPresent, asyncInstantiate,
            hbind, hpar]
      rw [hstep]
      have hl' : (b :: q').getLast? = some R := by
        simpa [List.getLast?_cons_cons] using hl
      exact ih b R fuel st rfl hl' hd'

/-- A fully exhausted lookup path: a parent chain ending at a root,
with no binding and an empty slot for `k` at every node including the
root. -/
def NoProviderPath (st : DIState) (k : Nat) : List Nat → Prop
  | [] => False
  | [i] => parentOf st i = none ∧ getBinding st i k = none ∧
      getInstance st i k = Obj.vnull
  | i :: j :: rest =>
    parentOf st i = some j ∧ getBinding st i k = none ∧
      getInstance st i k = Obj.vnull ∧ NoProviderPath st k (j :: rest)

theorem getLast?_isSome_of_ne_nil {α : Type} : ∀ (l : List α), l ≠ [] →
    ∃ x, l.getLast? = some x := by
  intro l
  induction l with
  | nil => intro h; exact absurd rfl h
  | cons a q ih =>
    intro _
    cases q with
    | nil => exact ⟨a, rfl⟩
    | cons b q' =>
      rcases ih (by simp) with ⟨x, hx⟩
      exact ⟨x, by simpa [List.getLast?_cons_cons] using hx⟩

/-- `_getByKey` at a root with no binding and an empty slot:
`NoProviderError` naming the key, state untouched. -/
theorem syncGet_noProvider_root (fuel inj : Nat) (key : Key) (st : DIState)
    (hk : key.tokenIsInjector = false)
    (hb : getBinding st inj key.id = none)
    (hs : getInstance st inj key.id = Obj.vnull)
    (hroot : parentOf st inj = none) :
    getByKey (fuel + 1) inj key false false st
      = (Except.error (DIErr.noProvider [key.id]), st) := by
  simp [getByKey, syncReadFromCache, hk, hs, isPresent, syncInstantiate, hb, hroot]

theorem noProviderPath_delegPath (st : DIState) (k : Nat) :
    ∀ p, NoProviderPath st k p → DelegPath st k p := by
  intro p
  induction p with
  | nil => intro h; exact h
  | cons a q ih =>
    cases q with
    | nil => intro _; trivial
    | cons b q' =>
      intro h
      rcases h with ⟨h1, h2, h3, h4⟩
      exact ⟨h1, h2, h3, ih h4⟩

theorem noProviderPath_last (st : DIState) (k : Nat) :
    ∀ p R, NoProviderPath st k p → p.getLast? = some R →
    parentOf st R = none ∧ getBinding st R k = none ∧
      getInstance st R k = Obj.vnull := by
  intro p
  induction p with
  | nil => intro R h; exact absurd h id
  | cons a q ih =>
    cases q with
    | nil =>
      intro R h hl
      have : R = a := by simpa using hl.symm
      subst this
      exact h
    | cons b q' =>
      intro R h hl
      rcases h with ⟨_, _, _, h4⟩
      exact ih R h4 (by simpa [List.getLast?_cons_cons] using hl)

/-- C7 (amended): a sync lookup fails with `NoProviderError` naming
`t` itself exactly when no injector on the ancestor chain binds `t`
(first conjunct: along a fully exhausted chain the error names `t` and
the state is untouched); when some injector on the chain does bind
`t` (its slot being empty, its binding dependency-free with a clean
factory), the lookup never fails with a `NoProviderError` — though a
binding with a missing transitive dependency can still surface
`NoProviderError` naming that dependency, which is the correction. -/
theorem C7_no_provider_chain :
    (∀ (p : List Nat) (i fuel : Nat) (key : Key) (st : DIState),
      key.tokenIsInjector = false → p.head? = some i →
      NoProviderPath st key.id p →
      getByKey (fuel + p.length) i key false false st
        = (Except.error (DIErr.noProvider [key.id]), st)) ∧
    (∀ (p : List Nat) (i J fuel : Nat) (key : Key) (b : Binding) (st : DIState),
      key.tokenIsInjector = false → p.head? = some i → p.getLast? = some J →
      DelegPath st key.id p →
      getBinding st J key.id = some b →
      getInstance st J key.id = Obj.vnull →
      b.dependencies = [] →
      CleanFactory b →
      ∀ ks, (getByKey (fuel + p.length) i key false false st).1
        ≠ Except.error (DIErr.noProvider ks)) := by
  constructor
  · intro p i fuel key st hk hh hnp
    have hne : p ≠ [] := by intro h; subst h; exact hnp
    rcases getLast?_isSome_of_ne_nil p hne with ⟨R, hR⟩
    have hdeleg := getByKey_delegate key false hk p i R fuel st hh hR
      (noProviderPath_delegPath st key.id p hnp)
    rcases noProviderPath_last st key.id p R hnp hR with ⟨hr1, hr2, hr3⟩
    rw [hdeleg]
    exact syncGet_noProvider_root fuel R key st hk hr2 hr3 hr1
  · intro p i J fuel key b st hk hh hl hd hb hs hdep hcf ks
    have hdeleg := getByKey_delegate key false hk p i J fuel st hh hl hd
    rw [hdeleg]
    by_cases hpf : b.providedAsFuture = true
    · have hmain : getByKey (fuel + 1) J key false false st
          = (Except.error (DIErr.asyncBinding [key.id]), st) := by
        simp [getByKey, syncReadFromCache, hk, hs, isPresent, syncInstantiate, hb, hpf]
      rw [hmain]
      intro hcontra
      simp at hcontra
    · rcases hfres : b.factory [] st.nextTag with e | w
      · have hmain : getByKey (fuel + 1) J key false false st
            = (Except.error (DIErr.instantiation [key.id]),
               clearInst (recordCall (markAsConstructing st J key.id) J key.id)
                 J key.id) := by
          simp [getByKey, syncReadFromCache, hk, hs, isPresent, syncInstantiate, hb,
            hpf, resolveDependencies, resolveDepsLoop, hdep, createInstance,
            markAsConstructing, nextTag_setInstance, hfres]
        rw [hmain]
        intro hcontra
        simp at hcontra
      · rcases hcf [] st.nextTag w hfres with ⟨hw1, _, _⟩
        have hp : isPresent w = true := by simp [isPresent, hw1]
        have hmain : getByKey (fuel + 1) J key false false st
            = (Except.ok w,
               setInstance (recordCall (markAsConstructing st J key.id) J key.id)
                 J key.id w) := by
          simp [getByKey, syncReadFromCache, hk, hs, isPresent, syncInstantiate, hb,
            hpf, resolveDependencies, resolveDepsLoop, hdep, createInstance,
            markAsConstructing, nextTag_setInstance, hfres, hp]
          exact fun hnull => absurd hnull hw1
        rw [hmain]
        intro hcontra
        simp at hcontra

def c7cb : Binding :=
  ⟨⟨0, false⟩, fun _ tag => Except.ok (Obj.vref tag), [⟨⟨1, false⟩, false, false⟩], false⟩

def c7cst : DIState := ⟨[⟨[some c7cb], [Obj.vnull, Obj.vnull], none⟩], [], [], 0, []⟩

/-- Counterexample to C7 as stated: the root injector DOES have a
binding for token 0, yet `get(0)` still fails with `NoProviderError`
— the binding's dependency (token 1) has no provider, and the error
chain `[1, 0]` names the dependency first. -/
theorem C7_counterexample :
    getBinding c7cst 0 0 = some c7cb ∧
    (getByKey 2 0 ⟨0, false⟩ false false c7cst).1
      = Except.error (DIErr.noProvider [1, 0]) :=
  ⟨rfl, rfl⟩

def c7wb : Binding := ⟨⟨0, false⟩, fun _ tag => Except.ok (Obj.vref tag), [], false⟩

def c7wst : DIState :=
  ⟨[⟨[some c7wb], [Obj.vnull], none⟩, ⟨[], [], some 0⟩], [], [], 0, []⟩

/-- Witness for the amended C7: token 2 is bound nowhere on the chain
(child 1 → root 0) and fails with `NoProviderError [2]`; token 0 is
bound at the root and its lookup from the child is not a
`NoProviderError`. -/
theorem C7_witness :
    (NoProviderPath c7wst 2 [1, 0] ∧ DelegPath c7wst 0 [1, 0] ∧
     getBinding c7wst 0 0 = some c7wb) ∧
    (getByKey 2 1 ⟨2, false⟩ false false c7wst
        = (Except.error (DIErr.noProvider [2]), c7wst) ∧
     (getByKey 2 1 ⟨0, false⟩ false false c7wst).1
        ≠ Except.error (DIErr.noProvider [0])) :=
  ⟨⟨⟨rfl, rfl, rfl, rfl, rfl, rfl⟩, ⟨rfl, rfl, rfl, trivial⟩, rfl⟩,
   C7_no_provider_chain.1 [1, 0] 1 0 ⟨2, false⟩ c7wst rfl rfl
     ⟨rfl, rfl, rfl, rfl, rfl, rfl⟩,
   C7_no_provider_chain.2 [1, 0] 1 0 0 ⟨0, false⟩ c7wb c7wst rfl rfl rfl
     ⟨rfl, rfl, rfl, trivial⟩ rfl rfl rfl
     (fun _ _ _ h => by
       cases h
       exact ⟨fun hh => Obj.noConfusion hh, fun hh => Obj.noConfusion hh, rfl⟩)
     [0]⟩

theorem injNode_recordCall (st : DIState) (i k j : Nat) :
    injNode (recordCall st i k) j = injNode st j := rfl

/-- C3: (1) a token bound (with a clean factory) at injector `R` is
resolvable from any descendant along a delegation path, and once one
descendant has resolved it — caching it at `R` — a lookup from any
other descendant of `R` returns the very same instance without
touching the state (singleton at the defining scope).  (2) If an
injector `C` on a descendant chain rebinds the token, a lookup from
`C`'s side is served by `C`'s own binding: the new instance is built
by `C`'s factory, cached in `C`'s slot array, and the instance arrays
of every other injector — in particular any ancestor holding its own
cached instance — are untouched. -/
theorem C3_parent_delegation_shadowing :
    (∀ (p1 p2 : List Nat) (D1 D2 R fuel1 fuel2 : Nat) (key : Key) (b : Binding)
       (st st' : DIState) (v : Obj),
      key.tokenIsInjector = false →
      p1.head? = some D1 → p1.getLast? = some R →
      p2.head? = some D2 → p2.getLast? = some R →
      DelegPath st key.id p1 →
      getBinding st R key.id = some b → CleanFactory b →
      getByKey (fuel1 + p1.length) D1 key false false st = (Except.ok v, st') →
      DelegPath st' key.id p2 →
      getByKey (fuel2 + p2.length) D2 key false false st' = (Except.ok v, st')) ∧
    (∀ (p : List Nat) (D C fuel : Nat) (key : Key) (b' : Binding) (st : DIState)
       (w : Obj),
      key.tokenIsInjector = false →
      p.head? = some D → p.getLast? = some C →
      DelegPath st key.id p →
      getBinding st C key.id = some b' →
      b'.providedAsFuture = false → b'.dependencies = [] →
      getInstance st C key.id = Obj.vnull →
      b'.factory [] st.nextTag = Except.ok w → w ≠ Obj.vnull →
      getByKey (fuel + p.length) D key false false st
        = (Except.ok w,
           setInstance (recordCall (markAsConstructing st C key.id) C key.id)
             C key.id w) ∧
      (∀ J, J ≠ C →
        (injNode ((getByKey (fuel + p.length) D key false false st).2) J).instances
          = (injNode st J).instances)) := by
  constructor
  · intro p1 p2 D1 D2 R fuel1 fuel2 key b st st' v hk hh1 hl1 hh2 hl2 hd1 hb hcf h1 hd2
    rw [getByKey_delegate key false hk p1 D1 R fuel1 st hh1 hl1 hd1] at h1
    rcases syncGet_servedLocal fuel1 R key b st st' v hk hb hcf h1 with ⟨hs, hv, hc, hw⟩
    rw [getByKey_delegate key false hk p2 D2 R fuel2 st' hh2 hl2 hd2]
    exact syncGet_cacheHit fuel2 R key st' v hk hs hv hc hw
  · intro p D C fuel key b' st w hk hh hl hd hb hpf hdep hs hf hw
    have hp : isPresent w = true := by simp [isPresent, hw]
    have hmain : getByKey (fuel + p.length) D key false false st
        = (Except.ok w,
           setInstance (recordCall (markAsConstructing st C key.id) C key.id)
             C key.id w) := by
      rw [getByKey_delegate key false hk p D C fuel st hh hl hd]
      simp [getByKey, syncReadFromCache, hk, hs, isPresent, syncInstantiate, hb, hpf,
        resolveDependencies, resolveDepsLoop, hdep, createInstance,
        markAsConstructing, nextTag_setInstance, hf, hp]
      exact fun hnull => absurd hnull hw
    refine ⟨hmain, ?_⟩
    intro J hJ
    rw [hmain]
    show (injNode (setInstance (recordCall (markAsConstructing st C key.id) C key.id)
        C key.id w) J).instances = (injNode st J).instances
    rw [injNode_setInstance_other _ _ _ _ _ hJ, injNode_recordCall,
      markAsConstructing, injNode_setInstance_other _ _ _ _ _ hJ]

def c3bR : Binding := ⟨⟨0, false⟩, fun _ tag => Except.ok (Obj.vref tag), [], false⟩

def c3bC : Binding :=
  ⟨⟨0, false⟩, fun _ tag => Except.ok (Obj.vref (tag + 50)), [], false⟩

def c3st : DIState :=
  ⟨[⟨[some c3bR], [Obj.vnull], none⟩,
    ⟨[], [], some 0⟩,
    ⟨[], [], some 0⟩,
    ⟨[some c3bC], [Obj.vnull], some 0⟩,
    ⟨[], [], some 3⟩],
   [], [], 0, []⟩

def c3st' : DIState := (getByKey 2 1 ⟨0, false⟩ false false c3st).2

/-- Witness for C3: root 0 binds key 0; children 1 and 2 delegate to
it and see the same instance; child 3 rebinds key 0 and a lookup from
its child 4 is served by 3's own factory, leaving the root's instance
array untouched. -/
theorem C3_witness :
    (DelegPath c3st 0 [1, 0] ∧ getBinding c3st 0 0 = some c3bR ∧
     getByKey 2 1 ⟨0, false⟩ false false c3st = (Except.ok (Obj.vref 0), c3st') ∧
     DelegPath c3st' 0 [2, 0] ∧
     DelegPath c3st 0 [4, 3] ∧ getBinding c3st 3 0 = some c3bC ∧
     getInstance c3st 3 0 = Obj.vnull) ∧
    (getByKey 2 2 ⟨0, false⟩ false false c3st' = (Except.ok (Obj.vref 0), c3st') ∧
     getByKey 2 4 ⟨0, false⟩ false false c3st
       = (Except.ok (Obj.vref 50),
          setInstance (recordCall (markAsConstructing c3st 3 0) 3 0) 3 0
            (Obj.vref 50)) ∧
     (injNode ((getByKey 2 4 ⟨0, false⟩ false false c3st).2) 0).instances
       = (injNode c3st 0).instances) :=
  ⟨⟨⟨rfl, rfl, rfl, trivial⟩, rfl, rfl, ⟨rfl, rfl, rfl, trivial⟩,
    ⟨rfl, rfl, rfl, trivial⟩, rfl, rfl⟩,
   C3_parent_delegation_shadowing.1 [1, 0] [2, 0] 1 2 0 0 0 ⟨0, false⟩ c3bR c3st c3st'
     (Obj.vref 0) rfl rfl rfl rfl rfl ⟨rfl, rfl, rfl, trivial⟩ rfl
     (fun _ _ _ h => by
       cases h
       exact ⟨fun hh => Obj.noConfusion hh, fun hh => Obj.noConfusion hh, rfl⟩)
     rfl ⟨rfl, rfl, rfl, trivial⟩,
   (C3_parent_delegation_shadowing.2 [4, 3] 4 3 0 ⟨0, false⟩ c3bC c3st (Obj.vref 50)
     rfl rfl rfl ⟨rfl, rfl, rfl, trivial⟩ rfl rfl rfl rfl rfl
     (fun hh => Obj.noConfusion hh)).1,
   (C3_parent_delegation_shadowing.2 [4, 3] 4 3 0 ⟨0, false⟩ c3bC c3st (Obj.vref 50)
     rfl rfl rfl ⟨rfl, rfl, rfl, trivial⟩ rfl rfl rfl rfl rfl
     (fun hh => Obj.noConfusion hh)).2 0 (by decide)⟩

theorem set_append_last {α : Type} : ∀ (l pad : List α) (v w : α),
    (l ++ pad ++ [v]).set (l.length + pad.length) w = l ++ pad ++ [w] := by
  intro l
  induction l with
  | nil =>
    intro pad
    induction pad with
    | nil => intro v w; rfl
    | cons a q ih =>
      intro v w
      simp only [List.nil_append, List.length_nil, List.length_cons, List.cons_append,
        Nat.zero_add] at *
      show (a :: (q ++ [v])).set (q.length + 1) w = a :: (q ++ [w])
      simp only [List.set]
      have := ih v w
      simp only [Nat.zero_add] at this
      rw [this]
  | cons a q ih =>
    intro pad v w
    simp only [List.cons_append, List.length_cons]
    show (a :: (q ++ pad ++ [v])).set (q.length + 1 + pad.length) w
        = a :: (q ++ pad ++ [w])
    have harith : q.length + 1 + pad.length = (q.length + pad.length) + 1 := by omega
    rw [harith]
    simp only [List.set]
    rw [ih pad v w]

theorem listSetD_listSetD (l : List Obj) (k : Nat) (v w : Obj) :
    listSetD (listSetD l k v) k w = listSetD l k w := by
  by_cases h : k < l.length
  · simp only [listSetD, h, if_pos, List.length_set]
    exact List.set_set v w l k
  · have hlen : (l ++ List.replicate (k - l.length) Obj.vnull ++ [v]).length = k + 1 := by
      simp [List.length_append, List.length_replicate]
      omega
    simp only [listSetD, h, if_neg, not_false_iff, hlen]
    have hk : k < k + 1 := Nat.lt_succ_self k
    simp only [hk, if_pos]
    generalize hp : List.replicate (k - l.length) Obj.vnull = pad
    have harith : k = l.length + pad.length := by
      rw [← hp]
      simp [List.length_replicate]
      omega
    rw [harith]
    exact set_append_last l pad v w

/-- Clearing a freshly written construction marker restores the state
when the slot was empty before (and in range). -/
theorem clear_mark_cancel (st : DIState) (i k : Nat)
    (hk : k < (injNode st i).instances.length)
    (hs : getInstance st i k = Obj.vnull) :
    clearInst (markAsConstructing st i k) i k = st := by
  rcases st with ⟨injs, futs, tks, tag, cls⟩
  by_cases hi : i < injs.length
  · simp only [clearInst, markAsConstructing, setInstance, mapNode, injNode,
      getInstance, listGetD] at *
    congr 1
    rw [List.set_set, getD_set_self injs i _ emptyNode hi]
    simp only [listSetD_listSetD]
    have hset : listSetD (injs.getD i emptyNode).instances k Obj.vnull
        = (injs.getD i emptyNode).instances := by
      simp only [listSetD, hk, if_pos]
      rw [← hs]
      exact set_getD_self _ k Obj.vnull hk
    rw [hset]
    exact set_getD_self injs i emptyNode hi
  · simp only [clearInst, markAsConstructing, setInstance, mapNode]
    rw [set_of_length_le injs i _ (Nat.le_of_not_lt hi),
      set_of_length_le injs i _ (Nat.le_of_not_lt hi)]

/-- A plain synchronous dependency on key `k'` (not a future, not
lazy). -/
def depOn (k' : Nat) : Dep := ⟨⟨k', false⟩, false, false⟩

/-- A chain of synchronous single-dependency bindings at injector
`inj`: every key in the list is bound, its sole dependency being the
next key of the list, and the last one depending on `tgt`. -/
def CycleChain (st : DIState) (inj : Nat) : List Nat → Nat → Prop
  | [], _ => True
  | [k], tgt => ∃ b : Binding, getBinding st inj k = some b ∧
      b.providedAsFuture = false ∧ b.dependencies = [depOn tgt]
  | k :: k' :: rest, tgt => (∃ b : Binding, getBinding st inj k = some b ∧
      b.providedAsFuture = false ∧ b.dependencies = [depOn k']) ∧
      CycleChain st inj (k' :: rest) tgt

theorem cycleChain_setInstance (st : DIState) (i k' : Nat) (v : Obj) (inj : Nat) :
    ∀ (suf : List Nat) (tgt : Nat), CycleChain st inj suf tgt →
      CycleChain (setInstance st i k' v) inj suf tgt := by
  intro suf
  induction suf with
  | nil => intro tgt h; exact h
  | cons k rest ih =>
    cases rest with
    | nil =>
      intro tgt h
      rcases h with ⟨b, h1, h2, h3⟩
      exact ⟨b, by rw [getBinding_setInstance]; exact h1, h2, h3⟩
    | cons k1 rest' =>
      intro tgt h
      rcases h with ⟨⟨b, h1, h2, h3⟩, h4⟩
      exact ⟨⟨b, by rw [getBinding_setInstance]; exact h1, h2, h3⟩, ih tgt h4⟩

theorem instances_length_setInstance_of_lt (st : DIState) (i k : Nat) (v : Obj)
    (hk : k < (injNode st i).instances.length) :
    (injNode (setInstance st i k v) i).instances.length
      = (injNode st i).instances.length := by
  by_cases hi : i < st.injectors.length
  · rw [injNode_setInstance_self st i k v hi]
    simp [listSetD, hk, List.length_set]
  · rw [setInstance_of_length_le st i k v (Nat.le_of_not_lt hi)]

/-- A sync lookup of a key whose slot already holds the construction
marker throws `CyclicDependencyError` immediately, state untouched. -/
theorem cyclic_hit (fuel inj k0 : Nat) (st : DIState)
    (hslot : getInstance st inj k0 = Obj.constructingM) :
    getByKey (fuel + 1) inj ⟨k0, false⟩ false false st
      = (Except.error (DIErr.cyclic [k0]), st) := by
  simp [getByKey, syncReadFromCache, hslot]

/-- One frame of a failing construction: the binding of `k` marks its
slot, resolving its single dependency fails with a provider error
`E`, the frame clears its own slot (restoring the state) and rethrows
`E` annotated with `k`. -/
theorem cycle_step (fuel inj k next : Nat) (b : Binding) (st : DIState) (E : DIErr)
    (hb : getBinding st inj k = some b)
    (hpf : b.providedAsFuture = false)
    (hdep : b.dependencies = [depOn next])
    (hslot : getInstance st inj k = Obj.vnull)
    (hk : k < (injNode st inj).instances.length)
    (hrec : getByKey fuel inj ⟨next, false⟩ false false (markAsConstructing st inj k)
        = (Except.error E, markAsConstructing st inj k)) :
    getByKey (fuel + 1) inj ⟨k, false⟩ false false st
      = (Except.error (addKey E k), st) := by
  have hmain : getByKey (fuel + 1) inj ⟨k, false⟩ false false st
      = (Except.error (addKey E k), clearInst (markAsConstructing st inj k) inj k) := by
    simp [getByKey, syncReadFromCache, hslot, isPresent, syncInstantiate, hb, hpf,
      resolveDependencies, resolveDepsLoop, hdep, depOn, hrec]
  rw [hmain, clear_mark_cancel st inj k hk hslot]

/-- Walking a cycle chain whose target `k0` is already marked: the
lookup of the chain's head fails with `CyclicDependencyError` whose
key list is `k0` followed by the chain in unwind order, and every
frame rolls its slot back — the state is fully restored. -/
theorem cycle_aux (inj k0 : Nat) :
    ∀ (suf : List Nat) (fuel : Nat) (st : DIState) (khead : Nat),
    CycleChain st inj suf k0 →
    getInstance st inj k0 = Obj.constructingM →
    (∀ k ∈ suf, getInstance st inj k = Obj.vnull) →
    (∀ k ∈ suf, k < (injNode st inj).instances.length) →
    suf.Nodup → k0 ∉ suf →
    suf.head? = some khead →
    getByKey (fuel + suf.length + 1) inj ⟨khead, false⟩ false false st
      = (Except.error (DIErr.cyclic (k0 :: suf.reverse)), st) := by
  intro suf
  induction suf with
  | nil => intro fuel st khead _ _ _ _ _ _ hh; simp at hh
  | cons k rest ih =>
    intro fuel st khead hcc hk0 hslots hlens hnd hk0nin hh
    have hkk : khead = k := by simpa using hh.symm
    rw [hkk]
    have hk0k : k0 ≠ k := fun h => hk0nin (by rw [h]; exact List.mem_cons_self k rest)
    have hslotk : getInstance st inj k = Obj.vnull := hslots k (List.mem_cons_self k rest)
    have hlenk : k < (injNode st inj).instances.length :=
      hlens k (List.mem_cons_self k rest)
    have hmarkc : getInstance (markAsConstructing st inj k) inj k0
        = Obj.constructingM := by
      rw [markAsConstructing, getInstance_setInstance_diffkey st inj k k0
        Obj.constructingM hk0k]
      exact hk0
    cases rest with
    | nil =>
      rcases hcc with ⟨b, hb, hpf, hdep⟩
      have hrec := cyclic_hit fuel inj k0 (markAsConstructing st inj k) hmarkc
      have := cycle_step (fuel + 1) inj k k0 b st (DIErr.cyclic [k0])
        hb hpf hdep hslotk hlenk hrec
      simpa [addKey] using this
    | cons k1 rest' =>
      rcases hcc with ⟨⟨b, hb, hpf, hdep⟩, hcc'⟩
      have hknin : k ∉ k1 :: rest' := by
        have := List.nodup_cons.mp hnd
        exact this.1
      have hrec := ih fuel (markAsConstructing st inj k) k1
        (cycleChain_setInstance st inj k Obj.constructingM inj (k1 :: rest') k0 hcc')
        hmarkc
        (fun kk hkk => by
          have hne : kk ≠ k := fun h => hknin (h ▸ hkk)
          rw [markAsConstructing, getInstance_setInstance_diffkey st inj k kk
            Obj.constructingM hne]
          exact hslots kk (List.mem_cons_of_mem k hkk))
        (fun kk hkk => by
          rw [markAsConstructing, instances_length_setInstance_of_lt st inj k
            Obj.constructingM hlenk]
          exact hlens kk (List.mem_cons_of_mem k hkk))
        (List.nodup_cons.mp hnd).2
        (fun h => hk0nin (List.mem_cons_of_mem k h))
        rfl
      have hstep := cycle_step (fuel + (k1 :: rest').length + 1) inj k k1 b st
        (DIErr.cyclic (k0 :: (k1 :: rest').reverse)) hb hpf hdep hslotk hlenk hrec
      have harith : fuel + (k :: k1 :: rest').length + 1
          = (fuel + (k1 :: rest').length + 1) + 1 := by simp [List.length]; omega
      rw [harith, hstep]
      simp [addKey, List.reverse_cons]

/-- C2: for a token `k0` whose binding's dependency chain reaches
`k0` again (directly, `ks = [k0]`, or transitively through the fresh
keys of `ks`), `get(k0)` raises `CyclicDependencyError` — its key
list records the whole cycle — and the state is completely restored:
the slot of `k0` and of every key on the failed construction chain is
empty afterwards, so a later `get` resolves from the binding table
again. -/
theorem C2_cyclic_dependency (inj fuel : Nat) (ks : List Nat) (k0 : Nat)
    (st : DIState)
    (hh : ks.head? = some k0)
    (hcc : CycleChain st inj ks k0)
    (hslots : ∀ k ∈ ks, getInstance st inj k = Obj.vnull)
    (hlens : ∀ k ∈ ks, k < (injNode st inj).instances.length)
    (hnd : ks.Nodup) :
    getByKey (fuel + ks.length + 1) inj ⟨k0, false⟩ false false st
      = (Except.error (DIErr.cyclic (k0 :: ks.reverse)), st) ∧
    (∀ k ∈ ks, getInstance
      ((getByKey (fuel + ks.length + 1) inj ⟨k0, false⟩ false false st).2) inj k
        = Obj.vnull) := by
  cases ks with
  | nil => simp at hh
  | cons kh rest =>
    have hk0h : kh = k0 := by simpa using hh
    subst hk0h
    have hslot0 : getInstance st inj kh = Obj.vnull :=
      hslots kh (List.mem_cons_self kh rest)
    have hlen0 : kh < (injNode st inj).instances.length :=
      hlens kh (List.mem_cons_self kh rest)
    have hmain : getByKey (fuel + (kh :: rest).length + 1) inj ⟨kh, false⟩ false false st
        = (Except.error (DIErr.cyclic (kh :: (kh :: rest).reverse)), st) := by
      cases rest with
      | nil =>
        rcases hcc with ⟨b, hb, hpf, hdep⟩
        have hinj : inj < st.injectors.length := inj_lt_of_getBinding st inj kh b hb
        have hmarkc : getInstance (markAsConstructing st inj kh) inj kh
            = Obj.constructingM :=
          getInstance_setInstance_self st inj kh Obj.constructingM hinj
        have hrec := cyclic_hit fuel inj kh (markAsConstructing st inj kh) hmarkc
        have := cycle_step (fuel + 1) inj kh kh b st (DIErr.cyclic [kh])
          hb hpf hdep hslot0 hlen0 hrec
        simpa [addKey] using this
      | cons k1 rest' =>
        rcases hcc with ⟨⟨b, hb, hpf, hdep⟩, hcc'⟩
        have hinj : inj < st.injectors.length := inj_lt_of_getBinding st inj kh b hb
        have hmarkc : getInstance (markAsConstructing st inj kh) inj kh
            = Obj.constructingM :=
          getInstance_setInstance_self st inj kh Obj.constructingM hinj
        have hknin : kh ∉ k1 :: rest' := (List.nodup_cons.mp hnd).1
        have hrec := cycle_aux inj kh (k1 :: rest') fuel
          (markAsConstructing st inj kh) k1
          (cycleChain_setInstance st inj kh Obj.constructingM inj (k1 :: rest') kh hcc')
          hmarkc
          (fun kk hkk => by
            have hne : kk ≠ kh := fun h => hknin (h ▸ hkk)
            rw [markAsConstructing, getInstance_setInstance_diffkey st inj kh kk
              Obj.constructingM hne]
            exact hslots kk (List.mem_cons_of_mem kh hkk))
          (fun kk hkk => by
            rw [markAsConstructing, instances_length_setInstance_of_lt st inj kh
              Obj.constructingM hlen0]
            exact hlens kk (List.mem_cons_of_mem kh hkk))
          (List.nodup_cons.mp hnd).2
          hknin
          rfl
        have hstep := cycle_step (fuel + (k1 :: rest').length + 1) inj kh k1 b st
          (DIErr.cyclic (kh :: (k1 :: rest').reverse)) hb hpf hdep hslot0 hlen0 hrec
        have harith : fuel + (kh :: k1 :: rest').length + 1
            = (fuel + (k1 :: rest').length + 1) + 1 := by simp [List.length]; omega
        rw [harith, hstep]
        simp [addKey, List.reverse_cons]
    refine ⟨hmain, ?_⟩
    intro k hk
    rw [hmain]
    exact hslots k hk

def c2b0 : Binding :=
  ⟨⟨0, false⟩, fun _ tag => Except.ok (Obj.vref tag), [depOn 1], false⟩

def c2b1 : Binding :=
  ⟨⟨1, false⟩, fun _ tag => Except.ok (Obj.vref tag), [depOn 2], false⟩

def c2b2 : Binding :=
  ⟨⟨2, false⟩, fun _ tag => Except.ok (Obj.vref tag), [depOn 0], false⟩

def c2st : DIState :=
  ⟨[⟨[some c2b0, some c2b1, some c2b2], [Obj.vnull, Obj.vnull, Obj.vnull], none⟩],
   [], [], 0, []⟩

/-- Witness for C2 at the concrete 3-cycle 0 → 1 → 2 → 0. -/
theorem C2_witness :
    (CycleChain c2st 0 [0, 1, 2] 0 ∧ getInstance c2st 0 0 = Obj.vnull ∧
     getInstance c2st 0 1 = Obj.vnull ∧ getInstance c2st 0 2 = Obj.vnull) ∧
    (getByKey 4 0 ⟨0, false⟩ false false c2st
        = (Except.error (DIErr.cyclic [0, 2, 1, 0]), c2st) ∧
     getInstance ((getByKey 4 0 ⟨0, false⟩ false false c2st).2) 0 0 = Obj.vnull ∧
     getInstance ((getByKey 4 0 ⟨0, false⟩ false false c2st).2) 0 1 = Obj.vnull ∧
     getInstance ((getByKey 4 0 ⟨0, false⟩ false false c2st).2) 0 2 = Obj.vnull) :=
  ⟨⟨⟨⟨c2b0, rfl, rfl, rfl⟩, ⟨c2b1, rfl, rfl, rfl⟩, ⟨c2b2, rfl, rfl, rfl⟩⟩,
    rfl, rfl, rfl⟩,
   (C2_cyclic_dependency 0 0 [0, 1, 2] 0 c2st rfl
     ⟨⟨c2b0, rfl, rfl, rfl⟩, ⟨c2b1, rfl, rfl, rfl⟩, ⟨c2b2, rfl, rfl, rfl⟩⟩
     (by decide) (by decide) (by decide)).1,
   (C2_cyclic_dependency 0 0 [0, 1, 2] 0 c2st rfl
     ⟨⟨c2b0, rfl, rfl, rfl⟩, ⟨c2b1, rfl, rfl, rfl⟩, ⟨c2b2, rfl, rfl, rfl⟩⟩
     (by decide) (by decide) (by decide)).2 0 (by decide),
   (C2_cyclic_dependency 0 0 [0, 1, 2] 0 c2st rfl
     ⟨⟨c2b0, rfl, rfl, rfl⟩, ⟨c2b1, rfl, rfl, rfl⟩, ⟨c2b2, rfl, rfl, rfl⟩⟩
     (by decide) (by decide) (by decide)).2 1 (by decide),
   (C2_cyclic_dependency 0 0 [0, 1, 2] 0 c2st rfl
     ⟨⟨c2b0, rfl, rfl, rfl⟩, ⟨c2b1, rfl, rfl, rfl⟩, ⟨c2b2, rfl, rfl, rfl⟩⟩
     (by decide) (by decide) (by decide)).2 2 (by decide)⟩

theorem isPresent_vfut (f : Nat) : isPresent (Obj.vfut f) = true := rfl

theorem futures_mark (st : DIState) (i k : Nat) :
    (markAsConstructing st i k).futures = st.futures := rfl

theorem tasks_mark (st : DIState) (i k : Nat) :
    (markAsConstructing st i k).tasks = st.tasks := rfl

theorem nextTag_mark (st : DIState) (i k : Nat) :
    (markAsConstructing st i k).nextTag = st.nextTag := rfl

theorem calls_mark (st : DIState) (i k : Nat) :
    (markAsConstructing st i k).calls = st.calls := rfl

/-- An injector whose slot holds the `_Waiting` wrapper serves an
async lookup with the very same in-flight future, touching nothing. -/
theorem asyncGet_waitingHit (fuel inj : Nat) (key : Key) (st : DIState) (f : Nat)
    (hk : key.tokenIsInjector = false)
    (hs : getInstance st inj key.id = Obj.waitingM f) :
    getByKey (fuel + 1) inj key true false st = (Except.ok (Obj.vfut f), st) := by
  simp [getByKey, asyncReadFromCache, hk, hs]

theorem runLoop_no_tasks : ∀ (m : Nat) (st : DIState), st.tasks = [] →
    runLoop m st = st := by
  intro m
  induction m with
  | zero => intro st _; rfl
  | succ m ih =>
    intro st h
    have hnone : schedStep st = none := by simp [schedStep, h]
    simp [runLoop, hnone]

theorem set_append_one {α : Type} : ∀ (l : List α) (p v : α),
    (l ++ [p]).set l.length v = l ++ [v] := by
  intro l
  induction l with
  | nil => intro p v; rfl
  | cons a q ih =>
    intro p v
    simp only [List.cons_append, List.length_cons, List.set]
    exact congrArg (fun l => a :: l) (ih p v)

theorem getD_append_one {α : Type} : ∀ (l : List α) (x d : α),
    (l ++ [x]).getD l.length d = x := by
  intro l
  induction l with
  | nil => intro x d; rfl
  | cons a q ih =>
    intro x d
    simp only [List.cons_append, List.length_cons, List.getD_cons_succ]
    exact ih x d

/-- The state right after `_AsyncInjectorStrategy.instantiate` for a
dependency-free binding on a previously quiescent scheduler: slot
marked then overwritten by the `_Waiting` wrapper of the freshly
allocated pending future, whose construction task is queued. -/
def c4mid (st : DIState) (inj : Nat) (key : Key) (b : Binding) : DIState :=
  setInstance
    { injectors := (markAsConstructing st inj key.id).injectors,
      futures := st.futures ++ [FutState.pending],
      tasks := [⟨inj, key, b, [], st.futures.length, TaskPhase.waitDeps⟩],
      nextTag := st.nextTag, calls := st.calls }
    inj key.id (Obj.waitingM st.futures.length)

/-- C4: (1) when an async lookup of a locally bound token starts a
construction, the returned future handle is the one stored in the
slot's `_Waiting` wrapper, and a second `asyncGet` issued while the
construction is in flight returns that very same handle without
changing anything — both callers share one pending computation.
(2) For a dependency-free binding on a quiescent scheduler, running
the event loop then settles that single computation: the factory is
invoked exactly once, the future completes with its value, and the
value replaces the pending marker in the slot. -/
theorem C4_shared_pending_async :
    (∀ (fuel fuel2 inj : Nat) (key : Key) (b : Binding) (st st₁ : DIState) (r : Obj),
      key.tokenIsInjector = false →
      getBinding st inj key.id = some b →
      getInstance st inj key.id = Obj.vnull →
      getByKey (fuel + 1) inj key true false st = (Except.ok r, st₁) →
      ∃ f, r = Obj.vfut f ∧ getInstance st₁ inj key.id = Obj.waitingM f ∧
        getByKey (fuel2 + 1) inj key true false st₁ = (Except.ok (Obj.vfut f), st₁)) ∧
    (∀ (fuel m inj : Nat) (key : Key) (b : Binding) (st : DIState) (w : Obj),
      key.tokenIsInjector = false →
      getBinding st inj key.id = some b →
      getInstance st inj key.id = Obj.vnull →
      b.dependencies = [] →
      st.tasks = [] →
      b.factory [] st.nextTag = Except.ok w →
      (∀ g, w ≠ Obj.vfut g) →
      getByKey (fuel + 1) inj key true false st
          = (Except.ok (Obj.vfut st.futures.length), c4mid st inj key b) ∧
      futGet (runLoop (m + 1) ((getByKey (fuel + 1) inj key true false st).2))
          st.futures.length = FutState.done w ∧
      (runLoop (m + 1) ((getByKey (fuel + 1) inj key true false st).2)).calls
          = st.calls ++ [(inj, key.id)] ∧
      getInstance (runLoop (m + 1) ((getByKey (fuel + 1) inj key true false st).2))
          inj key.id = w) := by
  constructor
  · intro fuel fuel2 inj key b st st₁ r hk hb hs h1
    simp only [getByKey, hk, Bool.false_eq_true, if_false, if_true, ite_true] at h1
    simp only [asyncReadFromCache, hk, hs, Bool.false_eq_true, if_false,
      reduceCtorEq, ite_false] at h1
    rcases hi : asyncInstantiate (getByKey fuel) inj key st with ⟨ri, sti⟩
    rw [hi] at h1
    simp only [asyncInstantiate, hb] at hi
    rcases hrd : resolveDependencies (getByKey fuel) inj key b true
        (markAsConstructing st inj key.id) with ⟨rd, st2⟩
    rw [hrd] at hi
    cases rd with
    | error e =>
      have : ri = Except.error e := (congrArg Prod.fst hi).symm
      rw [this] at h1
      simp at h1
    | ok deps =>
      simp only [allocFuture] at hi
      have hri : ri = Except.ok (Obj.vfut st2.futures.length) :=
        (congrArg Prod.fst hi).symm
      have hsti : sti = setInstance
          { injectors := st2.injectors,
            futures := st2.futures ++ [FutState.pending],
            tasks := st2.tasks ++
              [⟨inj, key, b, deps, st2.futures.length, TaskPhase.waitDeps⟩],
            nextTag := st2.nextTag, calls := st2.calls }
          inj key.id (Obj.waitingM st2.futures.length) := (congrArg Prod.snd hi).symm
      rw [hri] at h1
      simp only [isPresent_vfut, if_true, ite_true] at h1
      have hr : r = Obj.vfut st2.futures.length := by
        have := congrArg (fun p : Except DIErr Obj × DIState => match p.1 with
          | Except.ok u => u
          | _ => Obj.vnull) h1
        simpa using this.symm
      have hst : st₁ = sti := (congrArg Prod.snd h1).symm
      have hlen2 : inj < st2.injectors.length := by
        have e1 := injectors_length_resolveDependencies fuel inj key b true
          (markAsConstructing st inj key.id)
        rw [hrd] at e1
        simp only [markAsConstructing, injectors_length_setInstance] at e1
        rw [e1]
        exact inj_lt_of_getBinding st inj key.id b hb
      have hslot : getInstance st₁ inj key.id
          = Obj.waitingM st2.futures.length := by
        rw [hst, hsti]
        exact getInstance_setInstance_self _ inj key.id _ hlen2
      exact ⟨st2.futures.length, hr,  hslot,
        asyncGet_waitingHit fuel2 inj key st₁ st2.futures.length hk hslot⟩
  · intro fuel m inj key b st w hk hb hs hd ht hf hwf
    have hmain : getByKey (fuel + 1) inj key true false st
        = (Except.ok (Obj.vfut st.futures.length), c4mid st inj key b) := by
      simp [getByKey, asyncReadFromCache, hk, hs, asyncInstantiate, hb,
        resolveDependencies, resolveDepsLoop, hd, allocFuture, ht, c4mid,
        futures_setInstance, tasks_setInstance, nextTag_setInstance,
        calls_setInstance, isPresent_vfut, futures_mark, tasks_mark, nextTag_mark,
        calls_mark]
    have hinj : inj < st.injectors.length := inj_lt_of_getBinding st inj key.id b hb
    have hw5 : getInstance (c4mid st inj key b) inj key.id
        = Obj.waitingM st.futures.length := by
      unfold c4mid
      refine getInstance_setInstance_self _ inj key.id _ ?_
      show inj < (markAsConstructing st inj key.id).injectors.length
      simpa [markAsConstructing, injectors_length_setInstance] using hinj
    have hnt5 : (c4mid st inj key b).nextTag = st.nextTag := rfl
    have hcs : cacheStep (recordCall (c4mid st inj key b) inj key.id)
        ⟨inj, key, b, [], st.futures.length, TaskPhase.waitDeps⟩ w
        = (futSet (setInstance (recordCall (c4mid st inj key b) inj key.id)
            inj key.id w) st.futures.length (FutState.done w), none) := by
      cases w with
      | vfut g => exact absurd rfl (hwf g)
      | vnull => rfl
      | constructingM => rfl
      | waitingM f => rfl
      | vref t => rfl
      | vinj i => rfl
      | vthunk a c d => rfl
    have hstep : schedStep (c4mid st inj key b)
        = some { futSet (setInstance (recordCall (c4mid st inj key b) inj key.id)
            inj key.id w) st.futures.length (FutState.done w) with tasks := [] } := by
      have htasks : (c4mid st inj key b).tasks
          = [⟨inj, key, b, [], st.futures.length, TaskPhase.waitDeps⟩] := rfl
      have hidx : List.findIdx? (taskRunnable (c4mid st inj key b))
          [⟨inj, key, b, [], st.futures.length, TaskPhase.waitDeps⟩] = some 0 := rfl
      simp only [schedStep, htasks, hidx, runTask, depErr, List.findSome?, hw5,
        isWaiting, depValues, List.map_nil, hnt5, hf, hcs, List.getD, List.get?,
        Option.getD]
      rfl
    have hloop : runLoop (m + 1) (c4mid st inj key b)
        = { futSet (setInstance (recordCall (c4mid st inj key b) inj key.id)
            inj key.id w) st.futures.length (FutState.done w) with tasks := [] } := by
      have h1 : runLoop (m + 1) (c4mid st inj key b)
          = runLoop m { futSet (setInstance (recordCall (c4mid st inj key b)
              inj key.id) inj key.id w) st.futures.length (FutState.done w) with
              tasks := [] } := by
        simp [runLoop, hstep]
      rw [h1]
      exact runLoop_no_tasks m _ rfl
    refine ⟨hmain, ?_, ?_, ?_⟩
    · rw [hmain]
      show futGet (runLoop (m + 1) (c4mid st inj key b)) st.futures.length
        = FutState.done w
      rw [hloop]
      show ((st.futures ++ [FutState.pending]).set st.futures.length
          (FutState.done w)).getD st.futures.length FutState.pending
        = FutState.done w
      rw [set_append_one]
      exact getD_append_one st.futures (FutState.done w) FutState.pending
    · rw [hmain]
      show (runLoop (m + 1) (c4mid st inj key b)).calls = st.calls ++ [(inj, key.id)]
      rw [hloop]
      rfl
    · rw [hmain]
      show getInstance (runLoop (m + 1) (c4mid st inj key b)) inj key.id = w
      rw [hloop]
      show getInstance (setInstance (recordCall (c4mid st inj key b) inj key.id)
          inj key.id w) inj key.id = w
      refine getInstance_setInstance_self _ inj key.id w ?_
      show inj < (c4mid st inj key b).injectors.length
      unfold c4mid
      rw [injectors_length_setInstance]
      show inj < (markAsConstructing st inj key.id).injectors.length
      simpa [markAsConstructing, injectors_length_setInstance] using hinj

def c4b : Binding := ⟨⟨0, false⟩, fun _ tag => Except.ok (Obj.vref tag), [], false⟩

def c4st : DIState := ⟨[⟨[some c4b], [Obj.vnull], none⟩], [], [], 0, []⟩

/-- Witness for C4 at a concrete dependency-free binding: the
asyncGet installs the pending marker for future 0; running the loop
settles that future with the factory's fresh object, with exactly one
recorded invocation. -/
theorem C4_witness :
    (getBinding c4st 0 0 = some c4b ∧ getInstance c4st 0 0 = Obj.vnull ∧
     c4st.tasks = [] ∧ c4b.factory [] c4st.nextTag = Except.ok (Obj.vref 0)) ∧
    (getByKey 1 0 ⟨0, false⟩ true false c4st
        = (Except.ok (Obj.vfut 0), c4mid c4st 0 ⟨0, false⟩ c4b) ∧
     futGet (runLoop 1 ((getByKey 1 0 ⟨0, false⟩ true false c4st).2)) 0
        = FutState.done (Obj.vref 0) ∧
     (runLoop 1 ((getByKey 1 0 ⟨0, false⟩ true false c4st).2)).calls = [(0, 0)] ∧
     getInstance (runLoop 1 ((getByKey 1 0 ⟨0, false⟩ true false c4st).2)) 0 0
        = Obj.vref 0) :=
  ⟨⟨rfl, rfl, rfl, rfl⟩,
   C4_shared_pending_async.2 0 0 0 ⟨0, false⟩ c4b c4st (Obj.vref 0) rfl rfl rfl rfl
     rfl rfl (fun _ hh => Obj.noConfusion hh)⟩

theorem mapGet_mapSet : ∀ (m : BMap) (k k' : Nat) (b : Binding),
    mapGet (mapSet m k b) k' = if k = k' then some b else mapGet m k' := by
  intro m
  induction m with
  | nil =>
    intro k k' b
    simp [mapSet, mapGet]
  | cons p rest ih =>
    intro k k' b
    rcases p with ⟨k0, b0⟩
    by_cases h0 : k0 = k
    · subst h0
      simp only [mapSet, if_pos rfl]
      by_cases h1 : k0 = k' <;> simp [mapGet, h1]
    · simp only [mapSet, if_neg h0]
      by_cases h1 : k0 = k'
      · have h2 : ¬ k = k' := fun h => h0 (by rw [h1, h])
        simp [mapGet, h1, h2]
      · simp [mapGet, h1, ih]

theorem lastWins_cons (p : Nat × Binding) (s : List (Nat × Binding)) (k : Nat) :
    lastWins (p :: s) k
      = (lastWins s k).or (if p.1 = k then some p.2 else none) := by
  simp only [lastWins, List.reverse_cons, List.find?_append]
  rcases h : s.reverse.find? (fun q => q.1 == k) with _ | q
  · by_cases hp : p.1 = k
    · simp [List.find?, hp, h, Option.or]
    · simp [List.find?, hp, h, Option.or,
        show (p.1 == k) = false from by simpa using hp]
  · simp [h, Option.or]

theorem lastWins_append (s t : List (Nat × Binding)) (k : Nat) :
    lastWins (s ++ t) k = (lastWins t k).or (lastWins s k) := by
  simp only [lastWins, List.reverse_append, List.find?_append]
  rcases h1 : (t.reverse).find? (fun q => q.1 == k) with _ | q <;> simp [h1, Option.or]

theorem lastWins_entry_or (x : Option Binding) (kb k : Nat) (b : Binding)
    (z : Option Binding) :
    x.or (if kb = k then some b else z)
      = (x.or (if kb = k then some b else none)).or z := by
  rcases x with _ | y
  · by_cases h : kb = k <;> simp [Option.or, h]
  · simp [Option.or]

theorem flatten_lastWins_aux :
    ∀ (raws : List RawBinding) (res : BMap), rawWFList raws = true →
    ∃ m, flattenBindings raws res = Except.ok m ∧
      ∀ k, mapGet m k = (lastWins (flatSeq raws) k).or (mapGet res k) := by
  intro raws res
  induction raws, res using flattenBindings.induct with
  | case1 res =>
    intro _
    exact ⟨res, by simp [flattenBindings],
      fun k => by simp [flatSeq, lastWins, Option.or]⟩
  | case2 b rest res ih =>
    intro hwf
    have hwf' : rawWFList rest = true := by
      simp only [rawWFList, rawWF, Bool.true_and] at hwf
      exact hwf
    rcases ih hwf' with ⟨m, hm, hget⟩
    refine ⟨m, by simpa [flattenBindings] using hm, fun k => ?_⟩
    rw [hget k, mapGet_mapSet]
    show _ = (lastWins (flatSeq (RawBinding.binding b :: rest)) k).or (mapGet res k)
    simp only [flatSeq, lastWins_cons]
    exact lastWins_entry_or _ b.key.id k b _
  | case3 t rest res s ih =>
    intro hwf
    have hwf' : rawWFList rest = true := by
      simp only [rawWFList, rawWF, Bool.true_and] at hwf
      exact hwf
    rcases ih hwf' with ⟨m, hm, hget⟩
    refine ⟨m, by simpa [flattenBindings] using hm, fun k => ?_⟩
    rw [hget k, mapGet_mapSet]
    show _ = (lastWins (flatSeq (RawBinding.typ t :: rest)) k).or (mapGet res k)
    simp only [flatSeq, lastWins_cons]
    exact lastWins_entry_or _ t k (typeBinding t) _
  | case4 bs rest res e heq ih =>
    intro hwf
    simp only [rawWFList, rawWF] at hwf
    rcases (Bool.and_eq_true _ _).mp hwf with ⟨hwfbs, _⟩
    rcases ih hwfbs with ⟨m1, hm1, _⟩
    rw [hm1] at heq
    exact absurd heq (by simp)
  | case5 bs rest res res2 heq ih1 ih2 =>
    intro hwf
    simp only [rawWFList, rawWF] at hwf
    rcases (Bool.and_eq_true _ _).mp hwf with ⟨hwfbs, hwfrest⟩
    rcases ih1 hwfbs with ⟨m1, hm1, hget1⟩
    have hm1' : m1 = res2 := by
      rw [hm1] at heq
      simpa using heq
    subst hm1'
    rcases ih2 hwfrest with ⟨m, hm, hget⟩
    refine ⟨m, by simp [flattenBindings, heq, hm], fun k => ?_⟩
    rw [hget k, hget1 k]
    show _ = (lastWins (flatSeq (RawBinding.nested bs :: rest)) k).or (mapGet res k)
    simp only [flatSeq, lastWins_append]
    exact (Option.or_assoc).symm
  | case6 tok rest res =>
    intro hwf
    simp [rawWFList, rawWF] at hwf
  | case7 rest res =>
    intro hwf
    simp [rawWFList, rawWF] at hwf

/-- C9: flattening a nested, well-formed collection of raw bindings
succeeds, and the resulting map sends every key id to the descriptor
appearing last in the left-to-right traversal of the recursively
flattened collection — later entries for the same key id overwrite
earlier ones (last wins). -/
theorem C9_flatten_last_wins (raws : List RawBinding) (k : Nat)
    (hwf : rawWFList raws = true) :
    Except.map (fun m => mapGet m k) (flattenBindings raws [])
      = Except.ok (lastWins (flatSeq raws) k) := by
  rcases flatten_lastWins_aux raws [] hwf with ⟨m, hm, hget⟩
  rw [hm]
  show Except.ok (mapGet m k) = _
  rw [hget k]
  show Except.ok ((lastWins (flatSeq raws) k).or none) = _
  rw [Option.or_none]

def c9bA : Binding := ⟨⟨0, false⟩, fun _ tag => Except.ok (Obj.vref tag), [], false⟩

def c9bB : Binding := ⟨⟨1, false⟩, fun _ tag => Except.ok (Obj.vref tag), [], false⟩

def c9bA2 : Binding := ⟨⟨0, false⟩, fun _ _ => Except.ok Obj.vnull, [depOn 1], false⟩

def c9raws : List RawBinding :=
  [RawBinding.binding c9bA,
   RawBinding.nested [RawBinding.binding c9bB,
     RawBinding.nested [RawBinding.binding c9bA2]]]

/-- Witness for C9 at the spec's `[A, [B, [A2]]]` shape, where `A` and
`A2` target the same key 0: only `A2` survives. -/
theorem C9_witness :
    rawWFList c9raws = true ∧
    Except.map (fun m => mapGet m 0) (flattenBindings c9raws [])
      = Except.ok (lastWins (flatSeq c9raws) 0) ∧
    lastWins (flatSeq c9raws) 0 = some c9bA2 :=
  ⟨by simp [rawWFList, rawWF, c9raws],
   C9_flatten_last_wins c9raws 0 (by simp [rawWFList, rawWF, c9raws]),
   by simp [c9raws, flatSeq, lastWins, List.find?, c9bA, c9bA2]⟩
